import Mathlib

/-!
# Decode-buffer engine of `miniaudio_fdkaac.h`

A shallow embedding of the streaming AAC data source in
`src/external/miniaudio_fdkaac.h` and the properties of its read, cursor and
length operations.

* The engine object `ma_fdkaac` keeps the fields the operations use.
* The demuxer (`av_read_frame`) and the decoder core (`aacDecoder_Fill`,
  `aacDecoder_DecodeFrame`, `aacDecoder_GetStreamInfo`) are external: their
  answers are given by a finite script of `av_event`s, one per iteration of
  the `while (1)` loop of `decode_one_aac_frame`.  An exhausted script means
  `av_read_frame` reports end of file.
* C integers are `Int`/`Nat` with explicit reduction modulo `2^32`/`2^64`.
-/

namespace FdkAac

/-! ## Machine integers -/

/-- Value of a C `int` converted to a 32-bit unsigned integer. -/
def toU32 (x : Int) : Nat := (x % 4294967296).toNat

/-- Value of a 32-bit unsigned integer converted to a C `int` (two's complement). -/
def toI32 (n : Nat) : Int :=
  if n % 4294967296 < 2147483648 then ((n % 4294967296 : Nat) : Int)
  else ((n % 4294967296 : Nat) : Int) - 4294967296

/-- Value of a signed integer converted to `ma_uint64`. -/
def toU64 (x : Int) : Nat := (x % 18446744073709551616).toNat

/-! ## Data model -/

/-- Result codes of miniaudio that the backend returns. -/
inductive ma_result
  | MA_SUCCESS
  | MA_ERROR
  | MA_INVALID_ARGS
  | MA_INVALID_OPERATION
  | MA_INVALID_FILE
  | MA_INVALID_DATA
  | MA_AT_END
  | MA_NOT_IMPLEMENTED
  deriving DecidableEq, Repr

/-- Error codes of the decoder core: `AAC_DEC_OK`, `AAC_DEC_NOT_ENOUGH_BITS`,
and every other code (all treated alike by the backend). -/
inductive AAC_DECODER_ERROR
  | AAC_DEC_OK
  | AAC_DEC_NOT_ENOUGH_BITS
  | AAC_DEC_FAILURE
  deriving DecidableEq, Repr

/-- The fields of the decoder's `CStreamInfo` the backend reads (C type `INT`). -/
structure CStreamInfo where
  sampleRate : Int
  frameSize : Int
  numChannels : Int
  deriving DecidableEq, Repr

/-- The fields of the demuxer's `AVStream` the backend reads. -/
structure AVStream where
  index : Int
  nb_frames : Int
  is_aac : Bool
  extradata_size : Int
  deriving DecidableEq, Repr

/-- The engine object `ma_fdkaac`: the selected stream `st` (`none` is `NULL`),
the scratch buffer `decode_buf` with its size in bytes, the cursor
`decode_buf_start`, the position counter `pcm_frame_cursor` and the cached
stream info (`none` is `NULL`). -/
structure ma_fdkaac where
  st : Option AVStream
  decode_buf : List Int
  decode_buf_size : Int
  decode_buf_start : Int
  pcm_frame_cursor : Nat
  info : Option CStreamInfo
  deriving DecidableEq, Repr

/-- Modelled from the spec: `sizeof(INT_PCM)`, a type of the decoder library
that is not declared in the source file; the scratch buffer holds
`decode_buf_size / sizeof(INT_PCM)` samples, 16384 after initialization. -/
def sizeof_INT_PCM : Nat := 2

/-- What one call of `aacDecoder_DecodeFrame` does: the error code it
returns, the samples it stores from the start of the output buffer, and the
stream info `aacDecoder_GetStreamInfo` gives afterwards (`none` is `NULL`). -/
structure DecodeFrameResult where
  err : AAC_DECODER_ERROR
  pcm : List Int
  info : Option CStreamInfo
  deriving DecidableEq, Repr

/-- One iteration of the packet loop as seen from the collaborators:
`av_read_frame` answers `AVERROR(EAGAIN)`, another negative value, or a
packet with its stream index; for a packet the script also tells what
`aacDecoder_Fill` and `aacDecoder_DecodeFrame` answer when they are given it. -/
inductive av_event
  | eagain
  | failed
  | packet (stream_index : Int) (fill : AAC_DECODER_ERROR) (dec : DecodeFrameResult)
  deriving DecidableEq, Repr

/-! ## Refill: `decode_one_aac_frame` -/

/-- Number of samples the decoder may store:
`pAAC->decode_buf_size / sizeof(INT_PCM)`. -/
def capacity (pAAC : ma_fdkaac) : Nat := pAAC.decode_buf_size.toNat / sizeof_INT_PCM

/-- Buffer after the decoder stored `pcm` from its start, at most `cap` samples. -/
def store_pcm (buf : List Int) (pcm : List Int) (cap : Nat) : List Int :=
  pcm.take cap ++ buf.drop (pcm.take cap).length

/-- The engine after `aacDecoder_DecodeFrame` ran and line 203 reset the
cursor: the buffer holds what the decoder stored, `decode_buf_start` is 0,
and a non-NULL `pAAC->info`, which points into the decoder, shows the
decoder's current stream info. -/
def after_DecodeFrame (pAAC : ma_fdkaac) (dec : DecodeFrameResult) : ma_fdkaac :=
  { pAAC with
    decode_buf := store_pcm pAAC.decode_buf dec.pcm (capacity pAAC)
    decode_buf_start := 0
    info := match pAAC.info, dec.info with
      | some _, some i => some i
      | cur, _ => cur }

/-- Lines 215-221: fetch the stream info when it is still NULL. -/
def fetch_info (pAAC : ma_fdkaac) (dec : DecodeFrameResult) : ma_result × ma_fdkaac :=
  match pAAC.info with
  | some _ => (ma_result.MA_SUCCESS, pAAC)
  | none =>
    match dec.info with
    | none => (ma_result.MA_ERROR, pAAC)
    | some i =>
      if i.sampleRate ≤ 0 then (ma_result.MA_ERROR, { pAAC with info := some i })
      else (ma_result.MA_SUCCESS, { pAAC with info := some i })

/-- The function `decode_one_aac_frame`: returns the result code, the engine
and the rest of the script.  A packet matches when its stream index is
`pAAC->st->index`. -/
def decode_one_aac_frame (pAAC : ma_fdkaac) :
    List av_event → ma_result × ma_fdkaac × List av_event
  | [] => (ma_result.MA_AT_END, pAAC, [])
  | av_event.eagain :: w => decode_one_aac_frame pAAC w
  | av_event.failed :: w => (ma_result.MA_AT_END, pAAC, w)
  | av_event.packet stream_index fill dec :: w =>
    if some stream_index ≠ pAAC.st.map AVStream.index then
      decode_one_aac_frame pAAC w
    else if fill ≠ AAC_DECODER_ERROR.AAC_DEC_OK then
      (ma_result.MA_ERROR, pAAC, w)
    else if dec.err = AAC_DECODER_ERROR.AAC_DEC_NOT_ENOUGH_BITS then
      decode_one_aac_frame (after_DecodeFrame pAAC dec) w
    else if dec.err ≠ AAC_DECODER_ERROR.AAC_DEC_OK then
      (ma_result.MA_ERROR, after_DecodeFrame pAAC dec, w)
    else
      ((fetch_info (after_DecodeFrame pAAC dec) dec).1,
       (fetch_info (after_DecodeFrame pAAC dec) dec).2, w)

/-! ## Read: `ma_fdkaac_read_pcm_frames` -/

/-- Line 350: `numChannels`, 2 when the stream info is absent. -/
def numChannels (pAAC : ma_fdkaac) : Nat :=
  match pAAC.info with
  | some i => toU32 i.numChannels
  | none => 2

/-- Line 351: `frameSize`, 1024 when the stream info is absent. -/
def frameSize (pAAC : ma_fdkaac) : Nat :=
  match pAAC.info with
  | some i => toU32 i.frameSize
  | none => 1024

/-- Line 352: `int decode_buf_end = numChannels * frameSize`, a product of
32-bit unsigned integers stored in an `int`. -/
def decode_buf_end (pAAC : ma_fdkaac) : Int := toI32 (numChannels pAAC * frameSize pAAC)

/-- Index `i + j` of line 357 (`int` plus `unsigned`, computed as unsigned). -/
def sample_index (i : Int) (j : Nat) : Nat := (toU32 i + j) % 4294967296

/-- Lines 356-357: the `numChannels` samples of the frame at `i`.  A read
outside the buffer has no defined value in C; it is given the value 0 here. -/
def copy_frame (c : Nat) (buf : List Int) (i : Int) : List Int :=
  (List.range c).map (fun j => buf.getD (sample_index i j) 0)

/-- What the `for` loop of lines 355-363 leaves: whether it jumped to `DONE`,
the cursor, the samples stored through `pcmOut` and the number of frames. -/
structure drain_result where
  done : Bool
  start : Int
  samples : List Int
  frames : Nat
  deriving DecidableEq, Repr

/-- The `for` loop of lines 355-363 with `c = numChannels` and
`e = decode_buf_end`.  The loop variable `i` and `pAAC->decode_buf_start`
start equal and receive the same increment, so one variable `start` stands
for both.  The first argument is `frameCount - totalPCMFramesRead - 1` at
loop entry: the loop jumps to `DONE` at the iteration that brings
`totalPCMFramesRead` to `frameCount`. -/
def drain (c : Nat) (e : Int) (buf : List Int) : Nat → Int → drain_result
  | 0, start =>
    if start < e then
      { done := true, start := toI32 (toU32 start + c), samples := copy_frame c buf start,
        frames := 1 }
    else { done := false, start := start, samples := [], frames := 0 }
  | k + 1, start =>
    if start < e then
      { done := (drain c e buf k (toI32 (toU32 start + c))).done
        start := (drain c e buf k (toI32 (toU32 start + c))).start
        samples := copy_frame c buf start ++ (drain c e buf k (toI32 (toU32 start + c))).samples
        frames := (drain c e buf k (toI32 (toU32 start + c))).frames + 1 }
    else { done := false, start := start, samples := [], frames := 0 }

/-- What the body of `ma_fdkaac_read_pcm_frames` leaves at `DONE`. -/
structure loop_result where
  result : ma_result
  totalPCMFramesRead : Nat
  pcmOut : List Int
  pAAC : ma_fdkaac
  world : List av_event
  deriving DecidableEq, Repr

/-- The `while (1)` loop of lines 348-370: drain the buffer, and when it is
exhausted before `frameCount` frames are out, refill and go on. -/
def read_loop (frameCount : Nat) (pAAC : ma_fdkaac) (w : List av_event)
    (totalPCMFramesRead : Nat) : loop_result :=
  let d := drain (numChannels pAAC) (decode_buf_end pAAC) pAAC.decode_buf
    (frameCount - totalPCMFramesRead - 1) pAAC.decode_buf_start
  let p1 := { pAAC with decode_buf_start := d.start }
  if d.done then
    { result := ma_result.MA_SUCCESS, totalPCMFramesRead := totalPCMFramesRead + d.frames,
      pcmOut := d.samples, pAAC := p1, world := w }
  else if _hfail : (decode_one_aac_frame p1 w).1 ≠ ma_result.MA_SUCCESS then
    { result := (decode_one_aac_frame p1 w).1,
      totalPCMFramesRead := totalPCMFramesRead + d.frames,
      pcmOut := d.samples, pAAC := (decode_one_aac_frame p1 w).2.1,
      world := (decode_one_aac_frame p1 w).2.2 }
  else
    let rest := read_loop frameCount (decode_one_aac_frame p1 w).2.1
      (decode_one_aac_frame p1 w).2.2 (totalPCMFramesRead + d.frames)
    { rest with pcmOut := d.samples ++ rest.pcmOut }
termination_by w.length
decreasing_by
  have key : ∀ (v : List av_event) (p : ma_fdkaac),
      (decode_one_aac_frame p v).1 = ma_result.MA_SUCCESS →
        (decode_one_aac_frame p v).2.2.length < v.length := by
    intro v
    induction v with
    | nil => intro _; simp [decode_one_aac_frame]
    | cons e v ih =>
      intro p
      cases e with
      | eagain =>
        simp only [decode_one_aac_frame, List.length_cons]
        exact fun hs => Nat.lt_succ_of_lt (ih p hs)
      | failed => simp [decode_one_aac_frame]
      | packet idx fill dec =>
        simp only [decode_one_aac_frame, List.length_cons]
        split_ifs
        · exact fun hs => Nat.lt_succ_of_lt (ih p hs)
        · simp
        · exact fun hs => Nat.lt_succ_of_lt (ih _ hs)
        · simp
        · simp
  exact key w _ (not_not.mp _hfail)

/-- What a call of `ma_fdkaac_read_pcm_frames` leaves: the result code, the
value of `*pFramesRead` (`none` when the caller passed `NULL`), the samples
stored in `pFramesOut`, the number of frames copied there, the engine and the
rest of the script. -/
structure read_result where
  result : ma_result
  pFramesRead : Option Nat
  pcmOut : List Int
  framesCopied : Nat
  pAAC : ma_fdkaac
  world : List av_event
  deriving DecidableEq, Repr

/-- The function `ma_fdkaac_read_pcm_frames` on an engine object that exists
(`pAAC != NULL`); `wantFramesRead` tells whether `pFramesRead` is non-NULL. -/
def ma_fdkaac_read_pcm_frames (pAAC : ma_fdkaac) (w : List av_event) (frameCount : Nat)
    (wantFramesRead : Bool) : read_result :=
  if frameCount = 0 then
    { result := ma_result.MA_INVALID_ARGS
      pFramesRead := if wantFramesRead then some 0 else none
      pcmOut := [], framesCopied := 0, pAAC := pAAC, world := w }
  else
    let l := read_loop frameCount pAAC w 0
    { result :=
        if l.result = ma_result.MA_SUCCESS ∧ l.totalPCMFramesRead = 0 then ma_result.MA_AT_END
        else l.result
      pFramesRead := if wantFramesRead then some l.totalPCMFramesRead else none
      pcmOut := l.pcmOut
      framesCopied := l.totalPCMFramesRead
      pAAC :=
        if wantFramesRead then
          { l.pAAC with
            pcm_frame_cursor :=
              (l.pAAC.pcm_frame_cursor + l.totalPCMFramesRead) % 18446744073709551616 }
        else l.pAAC
      world := l.world }

/-! ## Cursor and length queries -/

/-- The function `ma_fdkaac_get_cursor_in_pcm_frames` with a non-NULL
`pCursor`: the result code and the value stored in `*pCursor`. -/
def ma_fdkaac_get_cursor_in_pcm_frames (pAAC : ma_fdkaac) : ma_result × Nat :=
  (ma_result.MA_SUCCESS, pAAC.pcm_frame_cursor)

/-- The function `ma_fdkaac_get_length_in_pcm_frames` with a non-NULL
`pLength`: `some (code, value of *pLength)` when the call returns, `none` when
line 511 reads `pAAC->info->frameSize` through a NULL `info`, for which C
defines no behaviour. -/
def ma_fdkaac_get_length_in_pcm_frames (pAAC : ma_fdkaac) : Option (ma_result × Nat) :=
  match pAAC.st with
  | none => some (ma_result.MA_INVALID_ARGS, 0)
  | some st =>
    match pAAC.info with
    | none => none
    | some info =>
      some (ma_result.MA_SUCCESS,
        (toU64 st.nb_frames * toU64 info.frameSize) % 18446744073709551616)

/-! ## Initialization: `ma_fdkaac_init_file` -/

/-- What the collaborators answer during `ma_fdkaac_init_file`: the result of
`ma_data_source_init`, the return value of `avformat_open_input`, the stream
table, the answer of `aacDecoder_ConfigRaw`, and the content of the memory
`ma_malloc` hands out. -/
structure init_input where
  ds_init : ma_result
  open_ret : Int
  streams : List AVStream
  config : AAC_DECODER_ERROR
  fresh : Nat → Int

/-- The engine object after `MA_ZERO_OBJECT`. -/
def zero_object : ma_fdkaac :=
  { st := none, decode_buf := [], decode_buf_size := 0, decode_buf_start := 0,
    pcm_frame_cursor := 0, info := none }

/-- The function `ma_fdkaac_init_file`: the result code, the engine object
and the rest of the packet script after the priming refill. -/
def ma_fdkaac_init_file (inp : init_input) (w : List av_event) :
    ma_result × ma_fdkaac × List av_event :=
  if inp.ds_init ≠ ma_result.MA_SUCCESS then (inp.ds_init, zero_object, w)
  else if inp.open_ret < 0 then (ma_result.MA_INVALID_FILE, zero_object, w)
  else
    match inp.streams.find? (fun s => s.is_aac) with
    | none => (ma_result.MA_INVALID_DATA, zero_object, w)
    | some st =>
      if st.extradata_size = 0 then (ma_result.MA_INVALID_DATA, zero_object, w)
      else if inp.config ≠ AAC_DECODER_ERROR.AAC_DEC_OK then
        (ma_result.MA_INVALID_DATA, { zero_object with pcm_frame_cursor := 0, st := some st }, w)
      else
        decode_one_aac_frame
          { st := some st
            decode_buf := (List.range (8 * 2048 * sizeof_INT_PCM / sizeof_INT_PCM)).map inp.fresh
            decode_buf_size := 8 * 2048 * sizeof_INT_PCM
            decode_buf_start := -1
            pcm_frame_cursor := 0
            info := none } w

/-- The engine and script after a list of read calls, each given by its
`frameCount` and whether `pFramesRead` is non-NULL. -/
def run_reads (pAAC : ma_fdkaac) (w : List av_event) : List (Nat × Bool) → ma_fdkaac × List av_event
  | [] => (pAAC, w)
  | (n, b) :: calls =>
    run_reads (ma_fdkaac_read_pcm_frames pAAC w n b).pAAC
      (ma_fdkaac_read_pcm_frames pAAC w n b).world calls

/-- The samples the callers received from a list of read calls, in order. -/
def run_reads_out (pAAC : ma_fdkaac) (w : List av_event) : List (Nat × Bool) → List Int
  | [] => []
  | (n, b) :: calls =>
    (ma_fdkaac_read_pcm_frames pAAC w n b).pcmOut ++
      run_reads_out (ma_fdkaac_read_pcm_frames pAAC w n b).pAAC
        (ma_fdkaac_read_pcm_frames pAAC w n b).world calls

/-- The `for` loop of one iteration of the `while (1)` loop, entered with
`t` frames already out of `n`. -/
def loop_drain (n : Nat) (p : ma_fdkaac) (t : Nat) : drain_result :=
  drain (numChannels p) (decode_buf_end p) p.decode_buf (n - t - 1) p.decode_buf_start

/-- The engine when that `for` loop is left. -/
def loop_engine (n : Nat) (p : ma_fdkaac) (t : Nat) : ma_fdkaac :=
  { p with decode_buf_start := (loop_drain n p t).start }

/-! ## Example inputs -/

/-- The AAC stream of the examples: index 0, 9261 declared frames. -/
def example_stream : AVStream :=
  { index := 0, nb_frames := 9261, is_aac := true, extradata_size := 2 }

/-- Stream info of the small examples: mono, two PCM frames per AAC frame. -/
def example_info : CStreamInfo := { sampleRate := 44100, frameSize := 2, numChannels := 1 }

/-- The part of the scratch buffer the small examples never reach. -/
def example_tail : List Int := List.replicate 16382 0

/-- An initialized engine whose buffer holds the mono frames 5 and 6, the
first already delivered: one frame is left. -/
def engine_one_left : ma_fdkaac :=
  { st := some example_stream
    decode_buf := 5 :: 6 :: example_tail
    decode_buf_size := 32768
    decode_buf_start := 1
    pcm_frame_cursor := 1
    info := some example_info }

/-- The same engine with both frames delivered: the buffer is drained. -/
def engine_drained : ma_fdkaac :=
  { engine_one_left with decode_buf_start := 2, pcm_frame_cursor := 2 }

/-- An engine right after a refill that gave 1024 stereo frames. -/
def engine_stereo_full : ma_fdkaac :=
  { st := some example_stream
    decode_buf := List.replicate 16384 0
    decode_buf_size := 32768
    decode_buf_start := 0
    pcm_frame_cursor := 0
    info := some { sampleRate := 44100, frameSize := 1024, numChannels := 2 } }

/-- Sixteen thousand three hundred and eighty-four samples of silence. -/
def example_zeros : List Int := List.replicate 16384 0

/-- An engine whose initialization stopped at a failed priming decode (no
stream info) and that has since served 1023 default-sized stereo frames: one
frame of the default region is left. -/
def engine_no_info : ma_fdkaac :=
  { st := some example_stream
    decode_buf := example_zeros
    decode_buf_size := 32768
    decode_buf_start := 2046
    pcm_frame_cursor := 1023
    info := none }

/-- A packet of the selected stream that decodes to the mono frames 7 and 8. -/
def packet_7_8 : av_event :=
  av_event.packet 0 AAC_DECODER_ERROR.AAC_DEC_OK
    { err := AAC_DECODER_ERROR.AAC_DEC_OK, pcm := [7, 8], info := some example_info }

/-- The channel count read uses stays `c` over a script: it is `c` now and
every stream info the decoder reports for a packet of the script it is given
(a packet of the selected stream that `aacDecoder_Fill` accepts) has `c`
channels. -/
def channels_fixed (c : Nat) (p : ma_fdkaac) (w : List av_event) : Prop :=
  numChannels p = c ∧
    ∀ idx fill dec, av_event.packet idx fill dec ∈ w →
      some idx = p.st.map AVStream.index → fill = AAC_DECODER_ERROR.AAC_DEC_OK →
      ∀ i, dec.info = some i → toU32 i.numChannels = c

/-- An event that cannot make a refill fail: a retry, a packet of another
stream, or a packet of the selected stream that fills and decodes with
`AAC_DEC_OK` and has stream info with a positive sample rate. -/
def clean_event (st : Option AVStream) : av_event → Prop
  | av_event.eagain => True
  | av_event.failed => False
  | av_event.packet idx fill dec =>
    some idx ≠ st.map AVStream.index ∨
      (fill = AAC_DECODER_ERROR.AAC_DEC_OK ∧ dec.err = AAC_DECODER_ERROR.AAC_DEC_OK ∧
        ∃ i, dec.info = some i ∧ 0 < i.sampleRate)

/-- A script whose only failure is its end: the demuxer reports nothing but
retries and packets until the end of the stream, and every packet of the
selected stream fills and decodes. -/
def clean_script (st : Option AVStream) (w : List av_event) : Prop :=
  ∀ ev, ev ∈ w → clean_event st ev

/-- What the collaborators answer in the examples: the container opens and
holds the example AAC stream, whose configuration the decoder accepts. -/
def example_init : init_input :=
  { ds_init := ma_result.MA_SUCCESS, open_ret := 0, streams := [example_stream],
    config := AAC_DECODER_ERROR.AAC_DEC_OK, fresh := fun _ => 0 }

/-- The decoder respects the capacity it is given over a script: every
stream info it reports for a packet of the script it is given (a packet of
the selected stream that `aacDecoder_Fill` accepts) has non-negative `INT`
fields and describes a frame of at most 16384 samples. -/
def bounded_info (st : Option AVStream) (w : List av_event) : Prop :=
  ∀ idx fill dec, av_event.packet idx fill dec ∈ w →
    some idx = st.map AVStream.index → fill = AAC_DECODER_ERROR.AAC_DEC_OK →
    ∀ i, dec.info = some i →
      0 ≤ i.numChannels ∧ i.numChannels < 2147483648 ∧
      0 ≤ i.frameSize ∧ i.frameSize < 2147483648 ∧
      i.numChannels * i.frameSize ≤ 16384

/-- The state of the scratch buffer between loop iterations: 32768 bytes,
16384 samples, and, when stream info is present, a cursor on the frame grid
of a frame that fits the buffer. -/
def buffer_inv (p : ma_fdkaac) : Prop :=
  p.decode_buf_size = 32768 ∧ p.decode_buf.length = 16384 ∧
    ∀ i, p.info = some i →
      0 ≤ i.numChannels ∧ i.numChannels < 2147483648 ∧
      0 ≤ i.frameSize ∧ i.frameSize < 2147483648 ∧
      i.numChannels * i.frameSize ≤ 16384 ∧
      ∃ m : Nat, p.decode_buf_start = (m : Int) * i.numChannels ∧ (m : Int) ≤ i.frameSize

/-- A packet of the selected stream that decodes to the mono frames 5 and 6. -/
def packet_5_6 : av_event :=
  av_event.packet 0 AAC_DECODER_ERROR.AAC_DEC_OK
    { err := AAC_DECODER_ERROR.AAC_DEC_OK, pcm := [5, 6], info := some example_info }

/-- A packet of the selected stream that ends too early: the decoder answers
`AAC_DEC_NOT_ENOUGH_BITS` and stores nothing. -/
def packet_truncated : av_event :=
  av_event.packet 0 AAC_DECODER_ERROR.AAC_DEC_OK
    { err := AAC_DECODER_ERROR.AAC_DEC_NOT_ENOUGH_BITS, pcm := [], info := some example_info }

/-- The samples a script decodes, in decode order: the frames of the packets
of the selected stream that fill and decode with `AAC_DEC_OK`. -/
def produced_pcm (st : Option AVStream) : List av_event → List Int
  | [] => []
  | av_event.eagain :: w => produced_pcm st w
  | av_event.failed :: w => produced_pcm st w
  | av_event.packet idx fill dec :: w =>
    if some idx = st.map AVStream.index ∧ fill = AAC_DECODER_ERROR.AAC_DEC_OK ∧
        dec.err = AAC_DECODER_ERROR.AAC_DEC_OK then
      dec.pcm ++ produced_pcm st w
    else produced_pcm st w

/-- The decoded samples of the scratch buffer that no read has delivered yet:
those from the cursor to the end of the valid region. -/
def unread (p : ma_fdkaac) : List Int :=
  (p.decode_buf.take (decode_buf_end p).toNat).drop p.decode_buf_start.toNat

/-- Every decode the script describes stores exactly the frame its stream
info announces: `numChannels * frameSize` samples. -/
def exact_frames (w : List av_event) : Prop :=
  ∀ idx fill dec, av_event.packet idx fill dec ∈ w →
    ∀ i, dec.info = some i → (dec.pcm.length : Int) = i.numChannels * i.frameSize

/-- An initialized engine: the scratch buffer has its 16384 samples, stream
info is present and the cursor lies on the frame grid of a region that fits
the buffer. -/
def initialized (p : ma_fdkaac) : Prop := buffer_inv p ∧ p.info ≠ none

/-- An engine state in which read stays inside the scratch buffer: the buffer
has its 16384 samples and the cursor lies on the frame grid of the region
read computes, from the stream info when it is present, from the default
two channels of 1024 frames when it is absent. -/
def safe_engine (p : ma_fdkaac) : Prop :=
  buffer_inv p ∧
    (p.info = none → ∃ m : Nat, p.decode_buf_start = 2 * (m : Int) ∧ m ≤ 1024)

/-- The head of the `while (1)` loop after `k` successful refills, starting
from the head `(p, w, t)`: the engine, the script and `totalPCMFramesRead`
there; `none` when the loop was left before. -/
def loop_head (n : Nat) : Nat → ma_fdkaac → List av_event → Nat →
    Option (ma_fdkaac × List av_event × Nat)
  | 0, p, w, t => some (p, w, t)
  | k + 1, p, w, t =>
    if (loop_drain n p t).done then none
    else if (decode_one_aac_frame (loop_engine n p t) w).1 ≠ ma_result.MA_SUCCESS then none
    else
      loop_head n k (decode_one_aac_frame (loop_engine n p t) w).2.1
        (decode_one_aac_frame (loop_engine n p t) w).2.2 (t + (loop_drain n p t).frames)

/-- A later packet of the selected stream that decodes to one stereo frame. -/
def packet_stereo : av_event :=
  av_event.packet 0 AAC_DECODER_ERROR.AAC_DEC_OK
    { err := AAC_DECODER_ERROR.AAC_DEC_OK, pcm := [1, 2],
      info := some { sampleRate := 44100, frameSize := 1, numChannels := 2 } }

/-! ## Machine-integer lemmas -/

theorem toU32_of_range (x : Int) (h0 : 0 ≤ x) (h1 : x < 4294967296) : toU32 x = x.toNat := by
  unfold toU32
  rw [Int.emod_eq_of_lt h0 h1]

theorem toI32_of_small (n : Nat) (h : n < 2147483648) : toI32 n = (n : Int) := by
  unfold toI32
  have h1 : n % 4294967296 = n := Nat.mod_eq_of_lt (by omega)
  rw [h1, if_pos h]

theorem toU64_of_range (x : Int) (h0 : 0 ≤ x) (h1 : x < 18446744073709551616) :
    toU64 x = x.toNat := by
  unfold toU64
  rw [Int.emod_eq_of_lt h0 h1]

/-! ## Initialization -/

/-- When the container opens, an AAC stream with a configuration is found
and the decoder accepts it, initialization ends in the priming refill on a
fresh buffer with the cursor at the sentinel. -/
theorem init_file_priming (inp : init_input) (w : List av_event) (st : AVStream)
    (h1 : inp.ds_init = ma_result.MA_SUCCESS) (h2 : ¬ inp.open_ret < 0)
    (h3 : inp.streams.find? (fun s => s.is_aac) = some st) (h4 : st.extradata_size ≠ 0)
    (h5 : inp.config = AAC_DECODER_ERROR.AAC_DEC_OK) :
    ma_fdkaac_init_file inp w =
      decode_one_aac_frame
        { st := some st
          decode_buf := (List.range (8 * 2048 * sizeof_INT_PCM / sizeof_INT_PCM)).map inp.fresh
          decode_buf_size := 8 * 2048 * sizeof_INT_PCM
          decode_buf_start := -1
          pcm_frame_cursor := 0
          info := none } w := by
  unfold ma_fdkaac_init_file
  rw [if_neg (by simp [h1]), if_neg h2, h3]
  simp only
  rw [if_neg h4, if_neg (by simp [h5])]

/-! ## Length query -/

/-- C7: with a selected stream and stream info present, get-length succeeds
and stores `(ma_uint64)st->nb_frames * info->frameSize`, the product taken
modulo 2^64; when both factors are non-negative and the product fits, this is
the exact product, and 9261 frames of size 1024 give 9483264. -/
theorem get_length_with_info (pAAC : ma_fdkaac) (st : AVStream) (info : CStreamInfo)
    (hst : pAAC.st = some st) (hinfo : pAAC.info = some info) :
    ma_fdkaac_get_length_in_pcm_frames pAAC =
        some (ma_result.MA_SUCCESS,
          (toU64 st.nb_frames * toU64 info.frameSize) % 18446744073709551616) ∧
      (0 ≤ st.nb_frames → 0 ≤ info.frameSize →
        st.nb_frames * info.frameSize < 18446744073709551616 →
        ma_fdkaac_get_length_in_pcm_frames pAAC =
          some (ma_result.MA_SUCCESS, (st.nb_frames * info.frameSize).toNat)) ∧
      (st.nb_frames = 9261 → info.frameSize = 1024 →
        ma_fdkaac_get_length_in_pcm_frames pAAC = some (ma_result.MA_SUCCESS, 9483264)) := by
  have hval : ma_fdkaac_get_length_in_pcm_frames pAAC =
      some (ma_result.MA_SUCCESS,
        (toU64 st.nb_frames * toU64 info.frameSize) % 18446744073709551616) := by
    simp [ma_fdkaac_get_length_in_pcm_frames, hst, hinfo]
  refine ⟨hval, ?_, ?_⟩
  · intro h0 h1 h2
    rw [hval]
    rcases Int.eq_ofNat_of_zero_le h0 with ⟨a, ha⟩
    rcases Int.eq_ofNat_of_zero_le h1 with ⟨b, hb⟩
    rw [ha, hb] at h2 ⊢
    have hab : a * b < 18446744073709551616 := by exact_mod_cast h2
    have hz : toU64 0 = 0 := by decide
    have hr : ((a : Int) * (b : Int)).toNat = a * b := by
      have : ((a : Int) * (b : Int)) = ((a * b : Nat) : Int) := by push_cast; ring
      rw [this, Int.toNat_ofNat]
    rw [hr]
    rcases Nat.eq_zero_or_pos a with ha0 | ha0
    · subst ha0
      simp [hz]
    rcases Nat.eq_zero_or_pos b with hb0 | hb0
    · subst hb0
      simp [hz]
    have h3 : a ≤ a * b := Nat.le_mul_of_pos_right a hb0
    have h4 : b ≤ a * b := Nat.le_mul_of_pos_left b ha0
    have ha2 : toU64 (a : Int) = a := by
      rw [toU64_of_range _ (by omega) (by omega), Int.toNat_ofNat]
    have hb2 : toU64 (b : Int) = b := by
      rw [toU64_of_range _ (by omega) (by omega), Int.toNat_ofNat]
    rw [ha2, hb2, Nat.mod_eq_of_lt hab]
  · intro h0 h1
    rw [hval, h0, h1]
    rfl

theorem get_length_with_info_witness :
    ma_fdkaac_get_length_in_pcm_frames engine_stereo_full =
      some (ma_result.MA_SUCCESS, 9483264) :=
  (get_length_with_info engine_stereo_full example_stream
    { sampleRate := 44100, frameSize := 1024, numChannels := 2 } rfl rfl).2.2 rfl rfl

/-- C6 (behaviour at the failing input): after an initialization whose
priming refill met the end of the stream, the stream is selected and the
stream info is absent; get-length then reads `frameSize` through the NULL
`info` instead of returning `MA_INVALID_OPERATION` with length 0. -/
theorem get_length_absent_info :
    (ma_fdkaac_init_file
        { ds_init := ma_result.MA_SUCCESS, open_ret := 0,
          streams := [{ index := 0, nb_frames := 9261, is_aac := true, extradata_size := 2 }],
          config := AAC_DECODER_ERROR.AAC_DEC_OK, fresh := fun _ => 0 } []).1
        = ma_result.MA_AT_END ∧
      (ma_fdkaac_init_file
        { ds_init := ma_result.MA_SUCCESS, open_ret := 0,
          streams := [{ index := 0, nb_frames := 9261, is_aac := true, extradata_size := 2 }],
          config := AAC_DECODER_ERROR.AAC_DEC_OK, fresh := fun _ => 0 } []).2.1.info = none ∧
      ma_fdkaac_get_length_in_pcm_frames
        (ma_fdkaac_init_file
          { ds_init := ma_result.MA_SUCCESS, open_ret := 0,
            streams := [{ index := 0, nb_frames := 9261, is_aac := true, extradata_size := 2 }],
            config := AAC_DECODER_ERROR.AAC_DEC_OK, fresh := fun _ => 0 } []).2.1 = none ∧
      ma_fdkaac_get_length_in_pcm_frames
        (ma_fdkaac_init_file
          { ds_init := ma_result.MA_SUCCESS, open_ret := 0,
            streams := [{ index := 0, nb_frames := 9261, is_aac := true, extradata_size := 2 }],
            config := AAC_DECODER_ERROR.AAC_DEC_OK, fresh := fun _ => 0 } []).2.1
        ≠ some (ma_result.MA_INVALID_OPERATION, 0) := by
  simp [ma_fdkaac_init_file, decode_one_aac_frame, ma_fdkaac_get_length_in_pcm_frames]

/-! ## The drain loop -/

theorem drain_exhausted (c : Nat) (e : Int) (buf : List Int) (k : Nat) (start : Int)
    (h : ¬ start < e) :
    drain c e buf k start = { done := false, start := start, samples := [], frames := 0 } := by
  cases k <;> simp [drain, h]

theorem read_loop_done (n : Nat) (p : ma_fdkaac) (w : List av_event) (t : Nat)
    (hd : (loop_drain n p t).done = true) :
    read_loop n p w t =
      { result := ma_result.MA_SUCCESS, totalPCMFramesRead := t + (loop_drain n p t).frames,
        pcmOut := (loop_drain n p t).samples, pAAC := loop_engine n p t, world := w } := by
  rw [read_loop]
  simp only [loop_drain, loop_engine] at hd ⊢
  rw [if_pos hd]

theorem read_loop_fail (n : Nat) (p : ma_fdkaac) (w : List av_event) (t : Nat)
    (hd : (loop_drain n p t).done = false)
    (hf : (decode_one_aac_frame (loop_engine n p t) w).1 ≠ ma_result.MA_SUCCESS) :
    read_loop n p w t =
      { result := (decode_one_aac_frame (loop_engine n p t) w).1,
        totalPCMFramesRead := t + (loop_drain n p t).frames,
        pcmOut := (loop_drain n p t).samples,
        pAAC := (decode_one_aac_frame (loop_engine n p t) w).2.1,
        world := (decode_one_aac_frame (loop_engine n p t) w).2.2 } := by
  rw [read_loop]
  simp only [loop_drain, loop_engine] at hd hf ⊢
  rw [if_neg (by simp [hd]), dif_pos hf]

theorem read_loop_next (n : Nat) (p : ma_fdkaac) (w : List av_event) (t : Nat)
    (hd : (loop_drain n p t).done = false)
    (hs : (decode_one_aac_frame (loop_engine n p t) w).1 = ma_result.MA_SUCCESS) :
    read_loop n p w t =
      { read_loop n (decode_one_aac_frame (loop_engine n p t) w).2.1
          (decode_one_aac_frame (loop_engine n p t) w).2.2 (t + (loop_drain n p t).frames) with
        pcmOut := (loop_drain n p t).samples ++
          (read_loop n (decode_one_aac_frame (loop_engine n p t) w).2.1
            (decode_one_aac_frame (loop_engine n p t) w).2.2
            (t + (loop_drain n p t).frames)).pcmOut } := by
  rw [read_loop]
  simp only [loop_drain, loop_engine] at hd hs ⊢
  rw [if_neg (by simp [hd]), dif_neg (by simp [hs])]

/-- Induction along the iterations of the `while (1)` loop. -/
theorem read_loop_cases (n : Nat) (motive : ma_fdkaac → List av_event → Nat → Prop)
    (hdone : ∀ p w t, (loop_drain n p t).done = true → motive p w t)
    (hfail : ∀ p w t, (loop_drain n p t).done = false →
      (decode_one_aac_frame (loop_engine n p t) w).1 ≠ ma_result.MA_SUCCESS → motive p w t)
    (hnext : ∀ p w t, (loop_drain n p t).done = false →
      (decode_one_aac_frame (loop_engine n p t) w).1 = ma_result.MA_SUCCESS →
      motive (decode_one_aac_frame (loop_engine n p t) w).2.1
        (decode_one_aac_frame (loop_engine n p t) w).2.2 (t + (loop_drain n p t).frames) →
      motive p w t) :
    ∀ p w t, motive p w t := by
  intro p w t
  induction p, w, t using read_loop.induct n with
  | case1 p w t d hd => exact hdone p w t hd
  | case2 p w t d p1 hd hf => exact hfail p w t (by simpa using hd) hf
  | case3 p w t d p1 hd hs ih => exact hnext p w t (by simpa using hd) (by simpa using hs) ih

/-- The loop on a drained buffer whose refill fails: no frame, the refill's code. -/
theorem read_loop_drained_fail (frameCount : Nat) (pAAC : ma_fdkaac) (w : List av_event)
    (total : Nat) (hd : ¬ pAAC.decode_buf_start < decode_buf_end pAAC)
    (hf : (decode_one_aac_frame pAAC w).1 ≠ ma_result.MA_SUCCESS) :
    read_loop frameCount pAAC w total =
      { result := (decode_one_aac_frame pAAC w).1, totalPCMFramesRead := total, pcmOut := [],
        pAAC := (decode_one_aac_frame pAAC w).2.1, world := (decode_one_aac_frame pAAC w).2.2 } := by
  have hdr : loop_drain frameCount pAAC total =
      { done := false, start := pAAC.decode_buf_start, samples := [], frames := 0 } :=
    drain_exhausted _ _ _ _ _ hd
  have hen : loop_engine frameCount pAAC total = pAAC := by
    simp only [loop_engine, hdr]
  rw [read_loop_fail _ _ _ _ (by rw [hdr]) (by rw [hen]; exact hf), hdr, hen]
  rfl

/-! ## Projections of a read call with a positive frame count -/

theorem read_call_result (pAAC : ma_fdkaac) (w : List av_event) (n : Nat) (b : Bool) (hn : 0 < n) :
    (ma_fdkaac_read_pcm_frames pAAC w n b).result =
      if (read_loop n pAAC w 0).result = ma_result.MA_SUCCESS ∧
          (read_loop n pAAC w 0).totalPCMFramesRead = 0 then ma_result.MA_AT_END
      else (read_loop n pAAC w 0).result := by
  unfold ma_fdkaac_read_pcm_frames
  rw [if_neg (by omega)]

theorem read_call_framesCopied (pAAC : ma_fdkaac) (w : List av_event) (n : Nat) (b : Bool)
    (hn : 0 < n) :
    (ma_fdkaac_read_pcm_frames pAAC w n b).framesCopied =
      (read_loop n pAAC w 0).totalPCMFramesRead := by
  unfold ma_fdkaac_read_pcm_frames
  rw [if_neg (by omega)]

theorem read_call_pFramesRead (pAAC : ma_fdkaac) (w : List av_event) (n : Nat) (b : Bool)
    (hn : 0 < n) :
    (ma_fdkaac_read_pcm_frames pAAC w n b).pFramesRead =
      if b then some (read_loop n pAAC w 0).totalPCMFramesRead else none := by
  unfold ma_fdkaac_read_pcm_frames
  rw [if_neg (by omega)]

theorem read_call_pcmOut (pAAC : ma_fdkaac) (w : List av_event) (n : Nat) (b : Bool) (hn : 0 < n) :
    (ma_fdkaac_read_pcm_frames pAAC w n b).pcmOut = (read_loop n pAAC w 0).pcmOut := by
  unfold ma_fdkaac_read_pcm_frames
  rw [if_neg (by omega)]

theorem read_call_world (pAAC : ma_fdkaac) (w : List av_event) (n : Nat) (b : Bool) (hn : 0 < n) :
    (ma_fdkaac_read_pcm_frames pAAC w n b).world = (read_loop n pAAC w 0).world := by
  unfold ma_fdkaac_read_pcm_frames
  rw [if_neg (by omega)]

theorem read_call_start (pAAC : ma_fdkaac) (w : List av_event) (n : Nat) (b : Bool) (hn : 0 < n) :
    (ma_fdkaac_read_pcm_frames pAAC w n b).pAAC.decode_buf_start =
      (read_loop n pAAC w 0).pAAC.decode_buf_start := by
  unfold ma_fdkaac_read_pcm_frames
  rw [if_neg (by omega)]
  cases b <;> rfl

theorem read_call_decode_buf (pAAC : ma_fdkaac) (w : List av_event) (n : Nat) (b : Bool)
    (hn : 0 < n) :
    (ma_fdkaac_read_pcm_frames pAAC w n b).pAAC.decode_buf =
      (read_loop n pAAC w 0).pAAC.decode_buf := by
  unfold ma_fdkaac_read_pcm_frames
  rw [if_neg (by omega)]
  cases b <;> rfl

theorem read_call_decode_buf_size (pAAC : ma_fdkaac) (w : List av_event) (n : Nat) (b : Bool)
    (hn : 0 < n) :
    (ma_fdkaac_read_pcm_frames pAAC w n b).pAAC.decode_buf_size =
      (read_loop n pAAC w 0).pAAC.decode_buf_size := by
  unfold ma_fdkaac_read_pcm_frames
  rw [if_neg (by omega)]
  cases b <;> rfl

theorem read_call_info (pAAC : ma_fdkaac) (w : List av_event) (n : Nat) (b : Bool) (hn : 0 < n) :
    (ma_fdkaac_read_pcm_frames pAAC w n b).pAAC.info = (read_loop n pAAC w 0).pAAC.info := by
  unfold ma_fdkaac_read_pcm_frames
  rw [if_neg (by omega)]
  cases b <;> rfl

theorem read_call_st (pAAC : ma_fdkaac) (w : List av_event) (n : Nat) (b : Bool) (hn : 0 < n) :
    (ma_fdkaac_read_pcm_frames pAAC w n b).pAAC.st = (read_loop n pAAC w 0).pAAC.st := by
  unfold ma_fdkaac_read_pcm_frames
  rw [if_neg (by omega)]
  cases b <;> rfl

theorem read_call_cursor (pAAC : ma_fdkaac) (w : List av_event) (n : Nat) (b : Bool) (hn : 0 < n) :
    (ma_fdkaac_read_pcm_frames pAAC w n b).pAAC.pcm_frame_cursor =
      if b then ((read_loop n pAAC w 0).pAAC.pcm_frame_cursor +
          (read_loop n pAAC w 0).totalPCMFramesRead) % 18446744073709551616
      else (read_loop n pAAC w 0).pAAC.pcm_frame_cursor := by
  unfold ma_fdkaac_read_pcm_frames
  rw [if_neg (by omega)]
  cases b <;> rfl

/-! ## End of stream -/

/-- C8: on a fully drained scratch buffer (`decode_buf_start` equals the
`decode_buf_end` that read computes) and a demuxer that reports end of stream
on the next packet request, a read of `frameCount > 0` frames returns
`MA_AT_END`, copies no frame, stores nothing, and leaves the engine (cursor
and position counter included) as it was; with the demuxer still at the end,
the next call gives the same. -/
theorem read_at_end_of_stream (pAAC : ma_fdkaac) (w : List av_event) (frameCount : Nat)
    (wantFramesRead : Bool) (hn : 0 < frameCount)
    (hcur : pAAC.pcm_frame_cursor < 18446744073709551616)
    (hdrained : pAAC.decode_buf_start = decode_buf_end pAAC)
    (heos : w = [] ∨ ∃ rest, w = av_event.failed :: rest) :
    (ma_fdkaac_read_pcm_frames pAAC w frameCount wantFramesRead).result = ma_result.MA_AT_END ∧
    (ma_fdkaac_read_pcm_frames pAAC w frameCount wantFramesRead).framesCopied = 0 ∧
    (ma_fdkaac_read_pcm_frames pAAC w frameCount wantFramesRead).pFramesRead =
      (if wantFramesRead then some 0 else none) ∧
    (ma_fdkaac_read_pcm_frames pAAC w frameCount wantFramesRead).pcmOut = [] ∧
    (ma_fdkaac_read_pcm_frames pAAC w frameCount wantFramesRead).pAAC = pAAC ∧
    (ma_fdkaac_read_pcm_frames pAAC w frameCount wantFramesRead).world = w.tail ∧
    (w = [] →
      ma_fdkaac_read_pcm_frames
          (ma_fdkaac_read_pcm_frames pAAC w frameCount wantFramesRead).pAAC
          (ma_fdkaac_read_pcm_frames pAAC w frameCount wantFramesRead).world
          frameCount wantFramesRead =
        ma_fdkaac_read_pcm_frames pAAC w frameCount wantFramesRead) := by
  have hd : ¬ pAAC.decode_buf_start < decode_buf_end pAAC := by omega
  have hdec : decode_one_aac_frame pAAC w = (ma_result.MA_AT_END, pAAC, w.tail) := by
    rcases heos with h | ⟨rest, h⟩ <;> subst h <;> simp [decode_one_aac_frame]
  have hloop : read_loop frameCount pAAC w 0 =
      { result := ma_result.MA_AT_END, totalPCMFramesRead := 0, pcmOut := [],
        pAAC := pAAC, world := w.tail } := by
    rw [read_loop_drained_fail _ _ _ _ hd (by rw [hdec]; simp), hdec]
  have hmod : pAAC.pcm_frame_cursor % 18446744073709551616 = pAAC.pcm_frame_cursor :=
    Nat.mod_eq_of_lt hcur
  have hpa : (ma_fdkaac_read_pcm_frames pAAC w frameCount wantFramesRead).pAAC = pAAC := by
    unfold ma_fdkaac_read_pcm_frames
    rw [if_neg (by omega)]
    simp only [hloop]
    cases wantFramesRead <;> simp [hmod]
  have hw : (ma_fdkaac_read_pcm_frames pAAC w frameCount wantFramesRead).world = w.tail := by
    unfold ma_fdkaac_read_pcm_frames
    rw [if_neg (by omega)]
    simp only [hloop]
  refine ⟨?_, ?_, ?_, ?_, hpa, hw, ?_⟩
  · unfold ma_fdkaac_read_pcm_frames
    rw [if_neg (by omega)]
    simp [hloop]
  · unfold ma_fdkaac_read_pcm_frames
    rw [if_neg (by omega)]
    simp [hloop]
  · unfold ma_fdkaac_read_pcm_frames
    rw [if_neg (by omega)]
    simp [hloop]
  · unfold ma_fdkaac_read_pcm_frames
    rw [if_neg (by omega)]
    simp [hloop]
  · intro hnil
    rw [hpa, hw, hnil]
    rfl

theorem read_at_end_of_stream_witness :
    (ma_fdkaac_read_pcm_frames engine_drained [] 3 true).result = ma_result.MA_AT_END ∧
    (ma_fdkaac_read_pcm_frames engine_drained [] 3 true).framesCopied = 0 ∧
    (ma_fdkaac_read_pcm_frames engine_drained [] 3 true).pAAC = engine_drained :=
  have h := read_at_end_of_stream engine_drained [] 3 true (by decide) (by decide) (by decide)
    (Or.inl rfl)
  ⟨h.1, h.2.1, h.2.2.2.2.1⟩

/-! ## Reads served from the buffer -/

theorem copy_frame_inside (c : Nat) (buf : List Int) (start : Int) (h0 : 0 ≤ start)
    (h1 : start.toNat + c ≤ buf.length) (h2 : buf.length < 4294967296) :
    copy_frame c buf start = (buf.drop start.toNat).take c := by
  unfold copy_frame
  apply List.ext_getElem
  · simp only [List.length_map, List.length_range, List.length_take, List.length_drop]
    omega
  · intro j hj1 hj2
    simp only [List.length_map, List.length_range] at hj1
    have hidx : sample_index start j = start.toNat + j := by
      unfold sample_index
      rw [toU32_of_range start h0 (by omega)]
      exact Nat.mod_eq_of_lt (by omega)
    simp only [List.getElem_map, List.getElem_range, List.getElem_take, List.getElem_drop, hidx]
    rw [List.getD_eq_getElem _ _ (by omega)]

theorem drain_inside (c : Nat) (e : Int) (buf : List Int) (hc : 0 < c)
    (he : e ≤ (buf.length : Int)) (hlen : buf.length < 2147483648) :
    ∀ (k : Nat) (start : Int), 0 ≤ start → start + ((k + 1 : Nat) : Int) * (c : Int) ≤ e →
      drain c e buf k start =
        { done := true, start := start + ((k + 1 : Nat) : Int) * (c : Int),
          samples := (buf.drop start.toNat).take ((k + 1) * c), frames := k + 1 } := by
  intro k
  induction k with
  | zero =>
    intro start h0 h1
    have hlt : start < e := by
      have : (0 : Int) < (c : Int) := by exact_mod_cast hc
      simp only [Nat.zero_add, Nat.cast_one, one_mul] at h1
      omega
    have hstep : toI32 (toU32 start + c) = start + (c : Int) := by
      simp only [Nat.zero_add, Nat.cast_one, one_mul] at h1
      rw [toU32_of_range start h0 (by omega), toI32_of_small _ (by omega)]
      push_cast
      omega
    simp only [Nat.zero_add, Nat.cast_one, one_mul] at h1
    simp only [drain, if_pos hlt, hstep, Nat.zero_add, Nat.cast_one, one_mul]
    rw [copy_frame_inside c buf start h0 (by omega) (by omega)]
  | succ k ih =>
    intro start h0 h1
    have hcpos : (0 : Int) < (c : Int) := by exact_mod_cast hc
    have hk0 : (0 : Int) ≤ ((k + 1 : Nat) : Int) * (c : Int) :=
      mul_nonneg (by positivity) (le_of_lt hcpos)
    have hexp : ((k + 1 + 1 : Nat) : Int) * (c : Int) =
        (c : Int) + ((k + 1 : Nat) : Int) * (c : Int) := by push_cast; ring
    rw [hexp] at h1
    have hlt : start < e := by omega
    have hstep : toI32 (toU32 start + c) = start + (c : Int) := by
      rw [toU32_of_range start h0 (by omega), toI32_of_small _ (by omega)]
      push_cast
      omega
    have hrec := ih (start + (c : Int)) (by omega) (by omega)
    simp only [drain, if_pos hlt, hstep, hrec]
    have hcopy := copy_frame_inside c buf start h0 (by omega) (by omega)
    have htn : (start + (c : Int)).toNat = start.toNat + c := by omega
    have hsplit : (k + 1 + 1) * c = c + (k + 1) * c := by ring
    rw [hcopy, htn, hsplit, List.take_add, List.drop_drop, hexp, add_assoc]

/-- C9: an engine with stream info `i`, `c = i.numChannels > 0`, a cursor
inside the buffer and `k = (c * frameSize - decode_buf_start) / c` unread
frames serves a request of `0 < n ≤ k` frames from the buffer alone: the
result is `MA_SUCCESS` with `n` frames, the packet script is untouched (no
refill), the output is the `n * c` samples that start at the cursor in buffer
order, the cursor advances by `n * c`, and `k - n` frames stay buffered. -/
theorem read_from_buffer (pAAC : ma_fdkaac) (w : List av_event) (n : Nat)
    (wantFramesRead : Bool) (i : CStreamInfo)
    (hinfo : pAAC.info = some i) (hc : 0 < i.numChannels) (hf : 0 ≤ i.frameSize)
    (hcap : i.numChannels * i.frameSize ≤ (pAAC.decode_buf.length : Int))
    (hlen : pAAC.decode_buf.length < 2147483648)
    (hs : 0 ≤ pAAC.decode_buf_start) (hn : 0 < n)
    (hk : (n : Int) ≤
      (i.numChannels * i.frameSize - pAAC.decode_buf_start) / i.numChannels) :
    (ma_fdkaac_read_pcm_frames pAAC w n wantFramesRead).result = ma_result.MA_SUCCESS ∧
    (ma_fdkaac_read_pcm_frames pAAC w n wantFramesRead).framesCopied = n ∧
    (ma_fdkaac_read_pcm_frames pAAC w n wantFramesRead).pFramesRead =
      (if wantFramesRead then some n else none) ∧
    (ma_fdkaac_read_pcm_frames pAAC w n wantFramesRead).world = w ∧
    (ma_fdkaac_read_pcm_frames pAAC w n wantFramesRead).pcmOut =
      (pAAC.decode_buf.drop pAAC.decode_buf_start.toNat).take (n * i.numChannels.toNat) ∧
    (ma_fdkaac_read_pcm_frames pAAC w n wantFramesRead).pAAC.decode_buf_start =
      pAAC.decode_buf_start + (n : Int) * i.numChannels ∧
    (ma_fdkaac_read_pcm_frames pAAC w n wantFramesRead).pAAC.decode_buf = pAAC.decode_buf ∧
    (ma_fdkaac_read_pcm_frames pAAC w n wantFramesRead).pAAC.info = some i ∧
    (i.numChannels * i.frameSize -
        (ma_fdkaac_read_pcm_frames pAAC w n wantFramesRead).pAAC.decode_buf_start) /
        i.numChannels =
      (i.numChannels * i.frameSize - pAAC.decode_buf_start) / i.numChannels - (n : Int) := by
  have hmul : (n : Int) * i.numChannels ≤ i.numChannels * i.frameSize - pAAC.decode_buf_start :=
    (Int.le_ediv_iff_mul_le hc).mp hk
  rcases Int.eq_ofNat_of_zero_le (le_of_lt hc) with ⟨C, hC⟩
  rcases Int.eq_ofNat_of_zero_le hf with ⟨F, hF⟩
  rw [hC, hF] at hmul hcap
  rw [hC] at hc
  have hCpos : 0 < C := by exact_mod_cast hc
  have hnC : (0 : Int) < (n : Int) * (C : Int) := mul_pos (by exact_mod_cast hn) hc
  have hCF : C * F ≤ pAAC.decode_buf.length := by exact_mod_cast hcap
  have hFpos : 0 < F := by
    rcases Nat.eq_zero_or_pos F with h | h
    · subst h
      simp only [Nat.cast_zero, mul_zero, zero_sub] at hmul
      omega
    · exact h
  have hCle : C ≤ C * F := Nat.le_mul_of_pos_right C hFpos
  have hFle : F ≤ C * F := Nat.le_mul_of_pos_left F hCpos
  have hnc : numChannels pAAC = C := by
    simp only [numChannels, hinfo, hC]
    rw [toU32_of_range _ (by omega) (by omega), Int.toNat_ofNat]
  have hfs : frameSize pAAC = F := by
    simp only [frameSize, hinfo, hF]
    rw [toU32_of_range _ (by omega) (by omega), Int.toNat_ofNat]
  have hend : decode_buf_end pAAC = ((C * F : Nat) : Int) := by
    unfold decode_buf_end
    rw [hnc, hfs, toI32_of_small _ (by omega)]
  obtain ⟨k, rfl⟩ : ∃ k, n = k + 1 := ⟨n - 1, by omega⟩
  have hdrain := drain_inside C ((C * F : Nat) : Int) pAAC.decode_buf hCpos
    (by exact_mod_cast hCF) hlen k pAAC.decode_buf_start hs (by push_cast at hmul ⊢; omega)
  have hloop : read_loop (k + 1) pAAC w 0 =
      { result := ma_result.MA_SUCCESS, totalPCMFramesRead := k + 1,
        pcmOut := (pAAC.decode_buf.drop pAAC.decode_buf_start.toNat).take ((k + 1) * C),
        pAAC := { pAAC with decode_buf_start :=
          pAAC.decode_buf_start + ((k + 1 : Nat) : Int) * (C : Int) },
        world := w } := by
    have hdr : loop_drain (k + 1) pAAC 0 =
        { done := true, start := pAAC.decode_buf_start + ((k + 1 : Nat) : Int) * (C : Int),
          samples := (pAAC.decode_buf.drop pAAC.decode_buf_start.toNat).take ((k + 1) * C),
          frames := k + 1 } := by
      simp only [loop_drain, hnc, hend, Nat.sub_zero, Nat.add_sub_cancel, hdrain]
    rw [read_loop_done _ _ _ _ (by rw [hdr]), loop_engine, hdr]
    simp only [Nat.zero_add]
  have hCn : i.numChannels.toNat = C := by rw [hC, Int.toNat_ofNat]
  rw [read_call_result _ _ _ _ hn, read_call_framesCopied _ _ _ _ hn, read_call_pFramesRead _ _ _ _ hn,
    read_call_world _ _ _ _ hn, read_call_pcmOut _ _ _ _ hn, read_call_start _ _ _ _ hn,
    read_call_decode_buf _ _ _ _ hn, read_call_info _ _ _ _ hn, hloop, hCn, hC, hF]
  refine ⟨by simp, rfl, rfl, rfl, rfl, rfl, rfl, hinfo, ?_⟩
  have hne : (C : Int) ≠ 0 := by omega
  have : (C : Int) * (F : Int) - (pAAC.decode_buf_start + ((k + 1 : Nat) : Int) * (C : Int)) =
      ((C : Int) * (F : Int) - pAAC.decode_buf_start) + (-((k + 1 : Nat) : Int)) * (C : Int) := by
    ring
  simp only
  rw [this, Int.add_mul_ediv_right _ _ hne]
  ring


theorem read_from_buffer_witness :
    (ma_fdkaac_read_pcm_frames engine_stereo_full [] 500 true).result = ma_result.MA_SUCCESS ∧
    (ma_fdkaac_read_pcm_frames engine_stereo_full [] 500 true).framesCopied = 500 ∧
    (ma_fdkaac_read_pcm_frames engine_stereo_full [] 500 true).world = [] ∧
    (ma_fdkaac_read_pcm_frames engine_stereo_full [] 500 true).pAAC.decode_buf_start = 1000 ∧
    (2 * 1024 -
      (ma_fdkaac_read_pcm_frames engine_stereo_full [] 500 true).pAAC.decode_buf_start) / 2
      = 524 :=
  have h := read_from_buffer engine_stereo_full [] 500 true
    { sampleRate := 44100, frameSize := 1024, numChannels := 2 } rfl (by decide) (by decide)
    (by simp only [engine_stereo_full, List.length_replicate]; decide)
    (by simp only [engine_stereo_full, List.length_replicate]; decide) (by decide) (by decide)
    (by decide)
  ⟨h.1, h.2.1, h.2.2.2.1, h.2.2.2.2.2.1, h.2.2.2.2.2.2.2.2⟩

/-! ## Frame counts and result codes of the loop -/

theorem drain_counts (c : Nat) (e : Int) (buf : List Int) :
    ∀ (k : Nat) (start : Int),
      ((drain c e buf k start).done = true → (drain c e buf k start).frames = k + 1) ∧
      ((drain c e buf k start).done = false → (drain c e buf k start).frames ≤ k) ∧
      (drain c e buf k start).samples.length = (drain c e buf k start).frames * c ∧
      ((drain c e buf k start).done = false → ¬ (drain c e buf k start).start < e) := by
  intro k
  induction k with
  | zero =>
    intro start
    by_cases h : start < e
    · simp [drain, h, copy_frame]
    · simp [drain, h]
  | succ k ih =>
    intro start
    by_cases h : start < e
    · have hrec := ih (toI32 (toU32 start + c))
      simp only [drain, if_pos h]
      refine ⟨fun hd => by rw [hrec.1 hd], fun hd => Nat.succ_le_succ (hrec.2.1 hd), ?_,
        fun hd => hrec.2.2.2 hd⟩
      rw [List.length_append, hrec.2.2.1]
      simp only [copy_frame, List.length_map, List.length_range]
      ring
    · simp [drain, h]

theorem decode_one_aac_frame_codes (p : ma_fdkaac) (w : List av_event) :
    (decode_one_aac_frame p w).1 = ma_result.MA_SUCCESS ∨
    (decode_one_aac_frame p w).1 = ma_result.MA_AT_END ∨
    (decode_one_aac_frame p w).1 = ma_result.MA_ERROR := by
  induction w generalizing p with
  | nil => simp [decode_one_aac_frame]
  | cons ev w ih =>
    cases ev with
    | eagain => simpa [decode_one_aac_frame] using ih p
    | failed => simp [decode_one_aac_frame]
    | packet idx fill dec =>
      simp only [decode_one_aac_frame]
      split_ifs
      · exact ih p
      · simp
      · exact ih _
      · simp
      · simp only [fetch_info]
        split
        · simp
        · split
          · simp
          · split_ifs <;> simp

theorem read_loop_counts (n : Nat) :
    ∀ (p : ma_fdkaac) (w : List av_event) (t : Nat), t < n →
      t ≤ (read_loop n p w t).totalPCMFramesRead ∧
      (read_loop n p w t).totalPCMFramesRead ≤ n ∧
      ((read_loop n p w t).result = ma_result.MA_SUCCESS ↔
        (read_loop n p w t).totalPCMFramesRead = n) := by
  apply read_loop_cases n
  · intro p w t hd ht
    rw [read_loop_done n p w t hd]
    have h := (drain_counts (numChannels p) (decode_buf_end p) p.decode_buf (n - t - 1)
      p.decode_buf_start).1 hd
    have h2 : (loop_drain n p t).frames = n - t - 1 + 1 := h
    simp only [h2]
    refine ⟨by omega, by omega, ?_⟩
    constructor
    · intro _; omega
    · intro _; trivial
  · intro p w t hd hf ht
    rw [read_loop_fail n p w t hd hf]
    have h := (drain_counts (numChannels p) (decode_buf_end p) p.decode_buf (n - t - 1)
      p.decode_buf_start).2.1 hd
    have h2 : (loop_drain n p t).frames ≤ n - t - 1 := h
    simp only
    refine ⟨by omega, by omega, ?_⟩
    constructor
    · intro hs; exact absurd hs hf
    · intro _; omega
  · intro p w t hd hs ih ht
    have h := (drain_counts (numChannels p) (decode_buf_end p) p.decode_buf (n - t - 1)
      p.decode_buf_start).2.1 hd
    have h2 : (loop_drain n p t).frames ≤ n - t - 1 := h
    have hrec := ih (by omega)
    rw [read_loop_next n p w t hd hs]
    simp only
    exact ⟨by omega, hrec.2.1, hrec.2.2⟩

/-! ## The example engine -/

/-- The engine of the small examples is what initialization on a stream
whose first packet decodes to the frames 5 and 6, followed by a read of one
frame, leaves. -/
theorem engine_one_left_reached :
    (ma_fdkaac_init_file example_init [packet_5_6]).1 = ma_result.MA_SUCCESS ∧
    (ma_fdkaac_read_pcm_frames (ma_fdkaac_init_file example_init [packet_5_6]).2.1
      (ma_fdkaac_init_file example_init [packet_5_6]).2.2 1 true).pAAC = engine_one_left ∧
    (ma_fdkaac_read_pcm_frames (ma_fdkaac_init_file example_init [packet_5_6]).2.1
      (ma_fdkaac_init_file example_init [packet_5_6]).2.2 1 true).world = [] := by
  have htail : List.drop 2 ((List.range (8 * 2048 * sizeof_INT_PCM / sizeof_INT_PCM)).map
      example_init.fresh) = example_tail := by
    have h : example_init.fresh = fun _ => (0 : Int) := rfl
    rw [h, List.map_const', List.length_range, List.drop_replicate]
    rfl
  rw [init_file_priming example_init [packet_5_6] example_stream rfl (by decide) rfl
    (by decide) rfl]
  generalize (List.range (8 * 2048 * sizeof_INT_PCM / sizeof_INT_PCM)).map example_init.fresh
    = fresh at htail
  simp [ma_fdkaac_read_pcm_frames, read_loop, drain, decode_one_aac_frame, packet_5_6,
    example_info, example_stream, numChannels, frameSize, decode_buf_end, toI32, toU32,
    copy_frame, sample_index, after_DecodeFrame, fetch_info, store_pcm, capacity,
    sizeof_INT_PCM, List.range, List.range.loop, engine_one_left, htail]

/-! ## Status of a read whose refill fails -/

/-- C1 (counterexample): one frame is buffered, two are requested and the
demuxer is at the end of the stream; the read copies the one frame and
returns the refill's `MA_AT_END`, not `MA_SUCCESS`. -/
theorem partial_read_returns_refill_status :
    0 < (ma_fdkaac_read_pcm_frames engine_one_left [] 2 true).framesCopied ∧
    (ma_fdkaac_read_pcm_frames engine_one_left [] 2 true).pFramesRead = some 1 ∧
    (ma_fdkaac_read_pcm_frames engine_one_left [] 2 true).pcmOut = [6] ∧
    (ma_fdkaac_read_pcm_frames engine_one_left [] 2 true).result = ma_result.MA_AT_END ∧
    (ma_fdkaac_read_pcm_frames engine_one_left [] 2 true).result ≠ ma_result.MA_SUCCESS := by
  simp [ma_fdkaac_read_pcm_frames, read_loop, drain, decode_one_aac_frame, engine_one_left,
    example_info, numChannels, frameSize, decode_buf_end, toI32, toU32, copy_frame, sample_index,
    List.range, List.range.loop]

/-! ## What a refill keeps -/

theorem decode_one_aac_frame_keeps (p : ma_fdkaac) (w : List av_event) :
    (decode_one_aac_frame p w).2.1.pcm_frame_cursor = p.pcm_frame_cursor ∧
    (decode_one_aac_frame p w).2.1.st = p.st ∧
    (decode_one_aac_frame p w).2.1.decode_buf_size = p.decode_buf_size := by
  induction w generalizing p with
  | nil => simp [decode_one_aac_frame]
  | cons ev w ih =>
    cases ev with
    | eagain => simpa [decode_one_aac_frame] using ih p
    | failed => simp [decode_one_aac_frame]
    | packet idx fill dec =>
      simp only [decode_one_aac_frame]
      split_ifs
      · exact ih p
      · simp
      · simpa [after_DecodeFrame] using ih (after_DecodeFrame p dec)
      · simp [after_DecodeFrame]
      · simp only [fetch_info]
        split
        · simp [after_DecodeFrame]
        · split
          · simp [after_DecodeFrame]
          · split_ifs <;> simp [after_DecodeFrame]

theorem decode_one_aac_frame_suffix (p : ma_fdkaac) (w : List av_event) :
    (decode_one_aac_frame p w).2.2 <:+ w := by
  induction w generalizing p with
  | nil => simp [decode_one_aac_frame]
  | cons ev w ih =>
    cases ev with
    | eagain =>
      simp only [decode_one_aac_frame]
      exact (ih p).trans (List.suffix_cons _ _)
    | failed => simp [decode_one_aac_frame]
    | packet idx fill dec =>
      simp only [decode_one_aac_frame]
      split_ifs
      · exact (ih p).trans (List.suffix_cons _ _)
      · exact List.suffix_cons _ _
      · exact (ih _).trans (List.suffix_cons _ _)
      · exact List.suffix_cons _ _
      · exact List.suffix_cons _ _

theorem read_loop_keeps (n : Nat) :
    ∀ (p : ma_fdkaac) (w : List av_event) (t : Nat),
      (read_loop n p w t).pAAC.pcm_frame_cursor = p.pcm_frame_cursor ∧
      (read_loop n p w t).pAAC.st = p.st ∧
      (read_loop n p w t).pAAC.decode_buf_size = p.decode_buf_size := by
  apply read_loop_cases n
  · intro p w t hd
    rw [read_loop_done n p w t hd]
    simp [loop_engine]
  · intro p w t hd hf
    rw [read_loop_fail n p w t hd hf]
    exact decode_one_aac_frame_keeps (loop_engine n p t) w
  · intro p w t hd hs ih
    rw [read_loop_next n p w t hd hs]
    have h := decode_one_aac_frame_keeps (loop_engine n p t) w
    simp only
    exact ⟨ih.1.trans h.1, ih.2.1.trans h.2.1, ih.2.2.trans h.2.2⟩

/-- With a non-NULL `pFramesRead` the position counter advances by the
frames copied, modulo 2^64. -/
theorem read_cursor_with_out_param (p : ma_fdkaac) (w : List av_event) (n : Nat)
    (h : 0 < n) :
    (ma_fdkaac_read_pcm_frames p w n true).pAAC.pcm_frame_cursor =
      (p.pcm_frame_cursor + (ma_fdkaac_read_pcm_frames p w n true).framesCopied)
        % 18446744073709551616 := by
  rw [read_call_cursor _ _ _ _ h, read_call_framesCopied _ _ _ _ h, (read_loop_keeps n p w 0).1]
  rfl

/-! ## Position counter -/

/-- C3 (behaviour at the failing input): a read of one frame with a NULL
`pFramesRead` copies the buffered frame and returns `MA_SUCCESS`, yet the
position counter that get-cursor reports stays at 1; the same call with a
non-NULL `pFramesRead` moves it to 2. -/
theorem cursor_not_advanced_without_out_param :
    (ma_fdkaac_read_pcm_frames engine_one_left [] 1 false).result = ma_result.MA_SUCCESS ∧
    (ma_fdkaac_read_pcm_frames engine_one_left [] 1 false).framesCopied = 1 ∧
    (ma_fdkaac_read_pcm_frames engine_one_left [] 1 false).pcmOut = [6] ∧
    ma_fdkaac_get_cursor_in_pcm_frames engine_one_left = (ma_result.MA_SUCCESS, 1) ∧
    ma_fdkaac_get_cursor_in_pcm_frames
      (ma_fdkaac_read_pcm_frames engine_one_left [] 1 false).pAAC = (ma_result.MA_SUCCESS, 1) ∧
    ma_fdkaac_get_cursor_in_pcm_frames
      (ma_fdkaac_read_pcm_frames engine_one_left [] 1 true).pAAC = (ma_result.MA_SUCCESS, 2) := by
  simp [ma_fdkaac_read_pcm_frames, ma_fdkaac_get_cursor_in_pcm_frames, read_loop, drain,
    decode_one_aac_frame, engine_one_left, example_info, numChannels, frameSize, decode_buf_end,
    toI32, toU32, copy_frame, sample_index, List.range, List.range.loop]

/-! ## Frames and samples of one call -/

theorem decode_one_aac_frame_channels (c : Nat) (p : ma_fdkaac) (w : List av_event)
    (h : channels_fixed c p w) :
    channels_fixed c (decode_one_aac_frame p w).2.1 (decode_one_aac_frame p w).2.2 := by
  refine ⟨?_, fun idx fill dec hm hidx hfill => h.2 idx fill dec
    ((decode_one_aac_frame_suffix p w).subset hm)
    (by rw [(decode_one_aac_frame_keeps p w).2.1] at hidx; exact hidx) hfill⟩
  induction w generalizing p with
  | nil => simpa [decode_one_aac_frame] using h.1
  | cons ev w ih =>
    have htail : ∀ q, q.st = p.st → numChannels q = c → channels_fixed c q w :=
      fun q hst hq => ⟨hq, fun idx fill dec hm hidx hfill =>
        h.2 idx fill dec (List.mem_cons_of_mem _ hm) (by rw [hst] at hidx; exact hidx) hfill⟩
    cases ev with
    | eagain => simpa [decode_one_aac_frame] using ih p (htail p rfl h.1)
    | failed => simpa [decode_one_aac_frame] using h.1
    | packet idx fill dec =>
      have hafter : (∀ i, dec.info = some i → toU32 i.numChannels = c) →
          numChannels (after_DecodeFrame p dec) = c := by
        intro hdec
        have h1 := h.1
        unfold numChannels after_DecodeFrame at *
        cases hp : p.info with
        | none => simpa [hp] using h1
        | some j =>
          cases hd : dec.info with
          | none => simpa [hp, hd] using h1
          | some i => simpa [hp, hd] using hdec i hd
      simp only [decode_one_aac_frame]
      split_ifs with c1 c2 c3 c4
      · exact ih p (htail p rfl h.1)
      · exact h.1
      · exact ih _ (htail _ rfl (hafter
          (h.2 idx fill dec (List.mem_cons_self _ _) (not_not.mp c1) (not_not.mp c2))))
      · exact hafter
          (h.2 idx fill dec (List.mem_cons_self _ _) (not_not.mp c1) (not_not.mp c2))
      · have hdec := h.2 idx fill dec (List.mem_cons_self _ _) (not_not.mp c1) (not_not.mp c2)
        simp only [fetch_info]
        split
        · exact hafter hdec
        · rename_i hnone
          split
          · exact hafter hdec
          · rename_i i hi
            have := hdec i hi
            split_ifs <;> simpa [numChannels] using this

theorem read_loop_samples (n c : Nat) :
    ∀ (p : ma_fdkaac) (w : List av_event) (t : Nat), channels_fixed c p w →
      (read_loop n p w t).pcmOut.length + t * c =
        (read_loop n p w t).totalPCMFramesRead * c := by
  apply read_loop_cases n
  · intro p w t hd hfix
    rw [read_loop_done n p w t hd]
    have h := (drain_counts (numChannels p) (decode_buf_end p) p.decode_buf (n - t - 1)
      p.decode_buf_start).2.2.1
    have h2 : (loop_drain n p t).samples.length = (loop_drain n p t).frames * c := by
      rw [← hfix.1]; exact h
    simp only [h2]
    ring
  · intro p w t hd hf hfix
    rw [read_loop_fail n p w t hd hf]
    have h := (drain_counts (numChannels p) (decode_buf_end p) p.decode_buf (n - t - 1)
      p.decode_buf_start).2.2.1
    have h2 : (loop_drain n p t).samples.length = (loop_drain n p t).frames * c := by
      rw [← hfix.1]; exact h
    simp only [h2]
    ring
  · intro p w t hd hs ih hfix
    have h := (drain_counts (numChannels p) (decode_buf_end p) p.decode_buf (n - t - 1)
      p.decode_buf_start).2.2.1
    have h2 : (loop_drain n p t).samples.length = (loop_drain n p t).frames * c := by
      rw [← hfix.1]; exact h
    have hfix1 : channels_fixed c (loop_engine n p t) w := ⟨hfix.1, hfix.2⟩
    have hrec := ih (decode_one_aac_frame_channels c _ w hfix1)
    rw [read_loop_next n p w t hd hs]
    simp only [List.length_append, h2]
    rw [← hrec]
    ring

/-- C4 (counterexample): the buffer has its 16384 samples, the stream info
is absent and one frame of the default stereo region is left; a read of two frames copies that frame with
two samples, refills, learns that the stream is mono and copies the second
frame with one sample: two frames, three samples, neither 2 x 2 nor 2 x 1. -/
theorem samples_not_frames_times_channels :
    safe_engine engine_no_info ∧
    (ma_fdkaac_read_pcm_frames engine_no_info [packet_7_8] 2 true).framesCopied = 2 ∧
    (ma_fdkaac_read_pcm_frames engine_no_info [packet_7_8] 2 true).pcmOut.length = 3 ∧
    numChannels engine_no_info = 2 ∧
    numChannels (ma_fdkaac_read_pcm_frames engine_no_info [packet_7_8] 2 true).pAAC = 1 ∧
    (ma_fdkaac_read_pcm_frames engine_no_info [packet_7_8] 2 true).pcmOut.length ≠
      (ma_fdkaac_read_pcm_frames engine_no_info [packet_7_8] 2 true).framesCopied *
        numChannels engine_no_info ∧
    (ma_fdkaac_read_pcm_frames engine_no_info [packet_7_8] 2 true).pcmOut.length ≠
      (ma_fdkaac_read_pcm_frames engine_no_info [packet_7_8] 2 true).framesCopied *
        numChannels (ma_fdkaac_read_pcm_frames engine_no_info [packet_7_8] 2 true).pAAC := by
  refine ⟨⟨⟨rfl, by simp only [engine_no_info, example_zeros, List.length_replicate],
    fun i hi => by simp [engine_no_info] at hi⟩, fun _ => ⟨1023, by decide, by decide⟩⟩, ?_⟩
  simp [ma_fdkaac_read_pcm_frames, read_loop, drain, decode_one_aac_frame, engine_no_info,
    packet_7_8, example_info, example_stream, numChannels, frameSize, decode_buf_end, toI32,
    toU32, copy_frame, sample_index, after_DecodeFrame, fetch_info, store_pcm, capacity,
    sizeof_INT_PCM, List.range, List.range.loop]

/-! ## The read after a short read -/

theorem decode_one_aac_frame_clean (p : ma_fdkaac) (w : List av_event)
    (h : clean_script p.st w) :
    (decode_one_aac_frame p w).1 ≠ ma_result.MA_SUCCESS →
      decode_one_aac_frame p w = (ma_result.MA_AT_END, p, []) := by
  induction w generalizing p with
  | nil => intro _; rfl
  | cons ev w ih =>
    have htail : clean_script p.st w := fun e he => h e (List.mem_cons_of_mem _ he)
    have hev : clean_event p.st ev := h ev (List.mem_cons_self _ _)
    cases ev with
    | eagain => simpa [decode_one_aac_frame] using ih p htail
    | failed => exact absurd hev (by simp [clean_event])
    | packet idx fill dec =>
      simp only [decode_one_aac_frame]
      by_cases hidx : some idx ≠ p.st.map AVStream.index
      · rw [if_pos hidx]
        exact ih p htail
      · rw [if_neg hidx]
        simp only [clean_event] at hev
        rcases hev with hev | ⟨hfill, herr, i, hi, hrate⟩
        · exact absurd hev hidx
        · rw [if_neg (by simp [hfill]), if_neg (by simp [herr]), if_neg (by simp [herr])]
          intro hne
          exfalso
          apply hne
          simp only [fetch_info]
          split
          · rfl
          · simp only [hi]
            rw [if_neg (by omega)]

theorem clean_script_after_refill (p : ma_fdkaac) (w : List av_event)
    (h : clean_script p.st w) :
    clean_script (decode_one_aac_frame p w).2.1.st (decode_one_aac_frame p w).2.2 := by
  intro ev hev
  rw [(decode_one_aac_frame_keeps p w).2.1]
  exact h ev ((decode_one_aac_frame_suffix p w).subset hev)

theorem read_loop_short_clean (n : Nat) :
    ∀ (p : ma_fdkaac) (w : List av_event) (t : Nat), clean_script p.st w →
      (read_loop n p w t).result ≠ ma_result.MA_SUCCESS →
      (read_loop n p w t).world = [] ∧
      ¬ (read_loop n p w t).pAAC.decode_buf_start < decode_buf_end (read_loop n p w t).pAAC := by
  apply read_loop_cases n
  · intro p w t hd _ hne
    rw [read_loop_done n p w t hd] at hne
    exact absurd rfl hne
  · intro p w t hd hf hclean _
    have hcl : clean_script (loop_engine n p t).st w := hclean
    have hdec := decode_one_aac_frame_clean (loop_engine n p t) w hcl hf
    rw [read_loop_fail n p w t hd hf, hdec]
    refine ⟨rfl, ?_⟩
    have h := (drain_counts (numChannels p) (decode_buf_end p) p.decode_buf (n - t - 1)
      p.decode_buf_start).2.2.2 hd
    exact h
  · intro p w t hd hs ih hclean hne
    have hcl : clean_script (loop_engine n p t).st w := hclean
    rw [read_loop_next n p w t hd hs] at hne ⊢
    exact ih (clean_script_after_refill _ w hcl) hne

/-- C5 (counterexample): one frame is buffered and two are requested; the
demuxer answers the packet request with an error, so the read is short (one
frame, `MA_AT_END`); the demuxer then delivers a packet, and the next read
copies a frame and returns `MA_SUCCESS`. -/
theorem short_read_then_frames :
    (ma_fdkaac_read_pcm_frames engine_one_left [av_event.failed, packet_7_8] 2 true).framesCopied
      = 1 ∧
    (ma_fdkaac_read_pcm_frames engine_one_left [av_event.failed, packet_7_8] 2 true).result
      = ma_result.MA_AT_END ∧
    (ma_fdkaac_read_pcm_frames
      (ma_fdkaac_read_pcm_frames engine_one_left [av_event.failed, packet_7_8] 2 true).pAAC
      (ma_fdkaac_read_pcm_frames engine_one_left [av_event.failed, packet_7_8] 2 true).world
      1 true).framesCopied = 1 ∧
    (ma_fdkaac_read_pcm_frames
      (ma_fdkaac_read_pcm_frames engine_one_left [av_event.failed, packet_7_8] 2 true).pAAC
      (ma_fdkaac_read_pcm_frames engine_one_left [av_event.failed, packet_7_8] 2 true).world
      1 true).pcmOut = [7] ∧
    (ma_fdkaac_read_pcm_frames
      (ma_fdkaac_read_pcm_frames engine_one_left [av_event.failed, packet_7_8] 2 true).pAAC
      (ma_fdkaac_read_pcm_frames engine_one_left [av_event.failed, packet_7_8] 2 true).world
      1 true).result = ma_result.MA_SUCCESS := by
  simp [ma_fdkaac_read_pcm_frames, read_loop, drain, decode_one_aac_frame, engine_one_left,
    packet_7_8, example_info, example_stream, numChannels, frameSize, decode_buf_end, toI32,
    toU32, copy_frame, sample_index, after_DecodeFrame, fetch_info, store_pcm, capacity,
    sizeof_INT_PCM, List.range, List.range.loop]

/-- C5 (amended): when the script holds no failure other than its end (the
demuxer answers with retries and packets until the end of the stream, and
every packet of the selected stream fills and decodes), a read of `n > 0`
frames that copies fewer than `n` is followed by a read that copies no
frame, stores nothing and returns `MA_AT_END`. -/
theorem read_after_short_read (p : ma_fdkaac) (w : List av_event) (n m : Nat) (b b2 : Bool)
    (hn : 0 < n) (hm : 0 < m) (hclean : clean_script p.st w)
    (hshort : (ma_fdkaac_read_pcm_frames p w n b).framesCopied < n) :
    (ma_fdkaac_read_pcm_frames (ma_fdkaac_read_pcm_frames p w n b).pAAC
      (ma_fdkaac_read_pcm_frames p w n b).world m b2).framesCopied = 0 ∧
    (ma_fdkaac_read_pcm_frames (ma_fdkaac_read_pcm_frames p w n b).pAAC
      (ma_fdkaac_read_pcm_frames p w n b).world m b2).pcmOut = [] ∧
    (ma_fdkaac_read_pcm_frames (ma_fdkaac_read_pcm_frames p w n b).pAAC
      (ma_fdkaac_read_pcm_frames p w n b).world m b2).result = ma_result.MA_AT_END := by
  have hc := read_loop_counts n p w 0 hn
  rw [read_call_framesCopied _ _ _ _ hn] at hshort
  have hne : (read_loop n p w 0).result ≠ ma_result.MA_SUCCESS := by
    intro h
    have := hc.2.2.mp h
    omega
  obtain ⟨hw, hdr⟩ := read_loop_short_clean n p w 0 hclean hne
  have hw2 : (ma_fdkaac_read_pcm_frames p w n b).world = [] := by
    rw [read_call_world _ _ _ _ hn, hw]
  have hend : decode_buf_end (ma_fdkaac_read_pcm_frames p w n b).pAAC =
      decode_buf_end (read_loop n p w 0).pAAC := by
    unfold decode_buf_end numChannels frameSize
    rw [read_call_info _ _ _ _ hn]
  have hdr2 : ¬ (ma_fdkaac_read_pcm_frames p w n b).pAAC.decode_buf_start <
      decode_buf_end (ma_fdkaac_read_pcm_frames p w n b).pAAC := by
    rw [hend, read_call_start _ _ _ _ hn]
    exact hdr
  have hloop := read_loop_drained_fail m (ma_fdkaac_read_pcm_frames p w n b).pAAC [] 0 hdr2
    (by simp [decode_one_aac_frame])
  rw [hw2, read_call_framesCopied _ _ _ _ hm, read_call_pcmOut _ _ _ _ hm,
    read_call_result _ _ _ _ hm, hloop]
  simp [decode_one_aac_frame]

theorem read_after_short_read_witness :
    clean_script engine_one_left.st [av_event.eagain, packet_7_8] ∧
    (ma_fdkaac_read_pcm_frames engine_one_left [av_event.eagain, packet_7_8] 5 true).framesCopied
      < 5 ∧
    (ma_fdkaac_read_pcm_frames
      (ma_fdkaac_read_pcm_frames engine_one_left [av_event.eagain, packet_7_8] 5 true).pAAC
      (ma_fdkaac_read_pcm_frames engine_one_left [av_event.eagain, packet_7_8] 5 true).world
      1 true).result = ma_result.MA_AT_END :=
  have hclean : clean_script engine_one_left.st [av_event.eagain, packet_7_8] := by
    intro ev hev
    simp only [List.mem_cons, List.mem_singleton, List.not_mem_nil, or_false] at hev
    rcases hev with h | h
    · rw [h]; trivial
    · rw [h]
      exact Or.inr ⟨rfl, rfl, example_info, rfl, by decide⟩
  have hshort :
      (ma_fdkaac_read_pcm_frames engine_one_left [av_event.eagain, packet_7_8] 5
        true).framesCopied < 5 := by
    simp [ma_fdkaac_read_pcm_frames, read_loop, drain, decode_one_aac_frame, engine_one_left,
      packet_7_8, example_info, example_stream, numChannels, frameSize, decode_buf_end, toI32,
      toU32, copy_frame, sample_index, after_DecodeFrame, fetch_info, store_pcm, capacity,
      sizeof_INT_PCM, List.range, List.range.loop]
  ⟨hclean, hshort, (read_after_short_read engine_one_left [av_event.eagain, packet_7_8] 5 1
    true true (by decide) (by decide) hclean hshort).2.2⟩

/-! ## The scratch-cursor invariant -/

theorem drain_grid (C F : Nat) (buf : List Int) (hCF : C * F ≤ 16384) :
    ∀ (k m : Nat), m ≤ F →
      ∃ m2 : Nat, m2 ≤ F ∧
        (drain C ((C * F : Nat) : Int) buf k ((m * C : Nat) : Int)).start =
          ((m2 * C : Nat) : Int) := by
  have hstep : ∀ m : Nat, ((m * C : Nat) : Int) < ((C * F : Nat) : Int) →
      m + 1 ≤ F ∧ toI32 (toU32 ((m * C : Nat) : Int) + C) = (((m + 1) * C : Nat) : Int) := by
    intro m h
    have h1 : m * C < C * F := by exact_mod_cast h
    have hmF : m < F := by
      by_contra hge
      have h2 : F ≤ m := Nat.le_of_not_lt hge
      have h3 : F * C ≤ m * C := Nat.mul_le_mul_right C h2
      rw [Nat.mul_comm F C] at h3
      omega
    have hle : (m + 1) * C ≤ F * C := Nat.mul_le_mul_right C hmF
    rw [Nat.mul_comm F C] at hle
    have hexp : (m + 1) * C = m * C + C := Nat.succ_mul m C
    refine ⟨hmF, ?_⟩
    rw [toU32_of_range _ (Int.natCast_nonneg _) (by omega), Int.toNat_ofNat,
      toI32_of_small _ (by omega), hexp]
  intro k
  induction k with
  | zero =>
    intro m hm
    by_cases h : ((m * C : Nat) : Int) < ((C * F : Nat) : Int)
    · exact ⟨m + 1, (hstep m h).1, by simp only [drain, if_pos h, (hstep m h).2]⟩
    · exact ⟨m, hm, by simp only [drain, if_neg h]⟩
  | succ k ih =>
    intro m hm
    by_cases h : ((m * C : Nat) : Int) < ((C * F : Nat) : Int)
    · obtain ⟨m2, h2, h3⟩ := ih (m + 1) (hstep m h).1
      exact ⟨m2, h2, by simp only [drain, if_pos h, (hstep m h).2, h3]⟩
    · exact ⟨m, hm, by simp only [drain, if_neg h]⟩

/-- With stream info inside the `INT` range and a frame that fits, read
computes the channel count, frame size and region end without wrap-around. -/
theorem region_of_info (p : ma_fdkaac) (i : CStreamInfo) (hi : p.info = some i)
    (h0 : 0 ≤ i.numChannels) (h1 : i.numChannels < 2147483648)
    (h2 : 0 ≤ i.frameSize) (h3 : i.frameSize < 2147483648)
    (h4 : i.numChannels * i.frameSize ≤ 16384) :
    numChannels p = i.numChannels.toNat ∧ frameSize p = i.frameSize.toNat ∧
    decode_buf_end p = ((i.numChannels.toNat * i.frameSize.toNat : Nat) : Int) ∧
    i.numChannels.toNat * i.frameSize.toNat ≤ 16384 := by
  rcases Int.eq_ofNat_of_zero_le h0 with ⟨C, hC⟩
  rcases Int.eq_ofNat_of_zero_le h2 with ⟨F, hF⟩
  rw [hC, hF] at h4
  have hCF : C * F ≤ 16384 := by exact_mod_cast h4
  have hnc : numChannels p = C := by
    simp only [numChannels, hi, hC]
    rw [toU32_of_range _ (by omega) (by omega), Int.toNat_ofNat]
  have hfs : frameSize p = F := by
    simp only [frameSize, hi, hF]
    rw [toU32_of_range _ (by omega) (by omega), Int.toNat_ofNat]
  rw [hC, hF, Int.toNat_ofNat, Int.toNat_ofNat]
  refine ⟨hnc, hfs, ?_, hCF⟩
  unfold decode_buf_end
  rw [hnc, hfs, toI32_of_small _ (by omega)]

theorem loop_engine_inv (n : Nat) (p : ma_fdkaac) (t : Nat) (h : buffer_inv p) :
    buffer_inv (loop_engine n p t) := by
  obtain ⟨hsize, hlen, hinfo⟩ := h
  refine ⟨hsize, hlen, ?_⟩
  intro i hi
  have hi2 : p.info = some i := hi
  obtain ⟨h0, h1, h2, h3, h4, m, hm, hmF⟩ := hinfo i hi2
  obtain ⟨hnc, hfs, hend, hCF⟩ := region_of_info p i hi2 h0 h1 h2 h3 h4
  refine ⟨h0, h1, h2, h3, h4, ?_⟩
  have hC : i.numChannels = (i.numChannels.toNat : Int) := (Int.toNat_of_nonneg h0).symm
  have hF : i.frameSize = (i.frameSize.toNat : Int) := (Int.toNat_of_nonneg h2).symm
  have hstart : p.decode_buf_start = ((m * i.numChannels.toNat : Nat) : Int) := by
    rw [hm]; push_cast; rw [← hC]
  obtain ⟨m2, hm2, hd⟩ := drain_grid i.numChannels.toNat i.frameSize.toNat p.decode_buf hCF
    (n - t - 1) m (by omega)
  refine ⟨m2, ?_, by omega⟩
  show (loop_drain n p t).start = (m2 : Int) * i.numChannels
  unfold loop_drain
  rw [hnc, hend, hstart, hd]
  push_cast
  rw [← hC]

theorem store_pcm_length (buf pcm : List Int) (cap : Nat) (h : cap ≤ buf.length) :
    (store_pcm buf pcm cap).length = buf.length := by
  unfold store_pcm
  simp only [List.length_append, List.length_take, List.length_drop]
  omega

theorem after_DecodeFrame_inv (p : ma_fdkaac) (dec : DecodeFrameResult) (h : buffer_inv p)
    (hdec : ∀ i, dec.info = some i →
      0 ≤ i.numChannels ∧ i.numChannels < 2147483648 ∧
      0 ≤ i.frameSize ∧ i.frameSize < 2147483648 ∧
      i.numChannels * i.frameSize ≤ 16384) :
    buffer_inv (after_DecodeFrame p dec) ∧ (after_DecodeFrame p dec).decode_buf_start = 0 := by
  obtain ⟨hsize, hlen, hinfo⟩ := h
  have hcap : capacity p = 16384 := by
    unfold capacity sizeof_INT_PCM
    rw [hsize]
    rfl
  refine ⟨⟨hsize, ?_, ?_⟩, rfl⟩
  · show (store_pcm p.decode_buf dec.pcm (capacity p)).length = 16384
    rw [store_pcm_length _ _ _ (by omega), hlen]
  · intro i hi
    have hi2 : (match p.info, dec.info with
        | some _, some i => some i
        | cur, _ => cur) = some i := hi
    have hzero : (after_DecodeFrame p dec).decode_buf_start = 0 := rfl
    cases hp : p.info with
    | none => simp [hp] at hi2
    | some j =>
      cases hd : dec.info with
      | none =>
        simp only [hp, hd] at hi2
        obtain ⟨h0, h1, h2, h3, h4, _⟩ := hinfo i (by rw [hp]; exact hi2)
        exact ⟨h0, h1, h2, h3, h4, 0, by rw [hzero]; simp, by simpa using h2⟩
      | some i2 =>
        simp only [hp, hd, Option.some.injEq] at hi2
        subst hi2
        obtain ⟨h0, h1, h2, h3, h4⟩ := hdec i2 hd
        exact ⟨h0, h1, h2, h3, h4, 0, by rw [hzero]; simp, by simpa using h2⟩

theorem fetch_info_inv (q : ma_fdkaac) (dec : DecodeFrameResult) (h : buffer_inv q)
    (hq : q.decode_buf_start = 0)
    (hdec : ∀ i, dec.info = some i →
      0 ≤ i.numChannels ∧ i.numChannels < 2147483648 ∧
      0 ≤ i.frameSize ∧ i.frameSize < 2147483648 ∧
      i.numChannels * i.frameSize ≤ 16384) :
    buffer_inv (fetch_info q dec).2 ∧
    ((fetch_info q dec).1 = ma_result.MA_SUCCESS → (fetch_info q dec).2.info ≠ none) := by
  unfold fetch_info
  cases hp : q.info with
  | some j => exact ⟨h, fun _ => by simp [hp]⟩
  | none =>
    cases hd : dec.info with
    | none => exact ⟨h, fun hs => by simp at hs⟩
    | some i =>
      obtain ⟨h0, h1, h2, h3, h4⟩ := hdec i hd
      have hnew : buffer_inv { q with info := some i } := by
        refine ⟨h.1, h.2.1, ?_⟩
        intro i2 hi2
        simp only [Option.some.injEq] at hi2
        subst hi2
        exact ⟨h0, h1, h2, h3, h4, 0, by simp [hq], by simpa using h2⟩
      simp only
      split_ifs
      · exact ⟨hnew, fun hs => by simp at hs⟩
      · exact ⟨hnew, fun _ => by simp⟩

theorem decode_one_aac_frame_inv (p : ma_fdkaac) (w : List av_event) (h : buffer_inv p)
    (hb : bounded_info p.st w) :
    buffer_inv (decode_one_aac_frame p w).2.1 ∧
    (p.info ≠ none → (decode_one_aac_frame p w).2.1.info ≠ none) ∧
    ((decode_one_aac_frame p w).1 = ma_result.MA_SUCCESS →
      (decode_one_aac_frame p w).2.1.info ≠ none) := by
  induction w generalizing p with
  | nil => exact ⟨h, fun hp => hp, fun hs => by simp [decode_one_aac_frame] at hs⟩
  | cons ev w ih =>
    have htail : bounded_info p.st w :=
      fun idx fill dec hm => hb idx fill dec (List.mem_cons_of_mem _ hm)
    cases ev with
    | eagain => simpa [decode_one_aac_frame] using ih p h htail
    | failed => exact ⟨h, fun hp => hp, fun hs => by simp [decode_one_aac_frame] at hs⟩
    | packet idx fill dec =>
      have hkeep : p.info ≠ none → (after_DecodeFrame p dec).info ≠ none := by
        intro hp
        show (match p.info, dec.info with
          | some _, some i => some i
          | cur, _ => cur) ≠ none
        cases hp2 : p.info with
        | none => exact absurd hp2 hp
        | some j => cases hd : dec.info <;> simp
      simp only [decode_one_aac_frame]
      split_ifs with c1 c2 c3 c4
      · exact ih p h htail
      · exact ⟨h, fun hp => hp, fun hs => by simp at hs⟩
      · have hdec := hb idx fill dec (List.mem_cons_self _ _) (not_not.mp c1) (not_not.mp c2)
        obtain ⟨hafter, hzero⟩ := after_DecodeFrame_inv p dec h hdec
        obtain ⟨a, b, c⟩ := ih _ hafter htail
        exact ⟨a, fun hp => b (hkeep hp), c⟩
      · have hdec := hb idx fill dec (List.mem_cons_self _ _) (not_not.mp c1) (not_not.mp c2)
        obtain ⟨hafter, hzero⟩ := after_DecodeFrame_inv p dec h hdec
        exact ⟨hafter, hkeep, fun hs => by simp at hs⟩
      · have hdec := hb idx fill dec (List.mem_cons_self _ _) (not_not.mp c1) (not_not.mp c2)
        obtain ⟨hafter, hzero⟩ := after_DecodeFrame_inv p dec h hdec
        obtain ⟨a, b⟩ := fetch_info_inv _ dec hafter hzero hdec
        refine ⟨a, ?_, b⟩
        intro hp
        have := hkeep hp
        simp only [fetch_info]
        cases hq : (after_DecodeFrame p dec).info with
        | none => exact absurd hq this
        | some j => simp [hq]

/-- A script that continues the rest of another one keeps what is known of
the decoder on the whole. -/
theorem bounded_info_suffix (st : Option AVStream) (w v : List av_event) (h : v <:+ w)
    (hb : bounded_info st w) : bounded_info st v :=
  fun idx fill dec hm => hb idx fill dec (h.subset hm)

theorem read_loop_world_suffix (n : Nat) :
    ∀ (p : ma_fdkaac) (w : List av_event) (t : Nat), (read_loop n p w t).world <:+ w := by
  apply read_loop_cases n
  · intro p w t hd
    rw [read_loop_done n p w t hd]
  · intro p w t hd hf
    rw [read_loop_fail n p w t hd hf]
    exact decode_one_aac_frame_suffix _ w
  · intro p w t hd hs ih
    rw [read_loop_next n p w t hd hs]
    exact ih.trans (decode_one_aac_frame_suffix _ w)

theorem read_call_world_suffix (p : ma_fdkaac) (w : List av_event) (n : Nat) (b : Bool) :
    (ma_fdkaac_read_pcm_frames p w n b).world <:+ w := by
  rcases Nat.eq_zero_or_pos n with h | h
  · subst h; exact List.suffix_refl _
  · rw [read_call_world _ _ _ _ h]; exact read_loop_world_suffix n p w 0

theorem read_call_keeps_st (p : ma_fdkaac) (w : List av_event) (n : Nat) (b : Bool) :
    (ma_fdkaac_read_pcm_frames p w n b).pAAC.st = p.st := by
  rcases Nat.eq_zero_or_pos n with h | h
  · subst h; rfl
  · rw [read_call_st _ _ _ _ h, (read_loop_keeps n p w 0).2.1]

theorem read_loop_inv (n : Nat) :
    ∀ (p : ma_fdkaac) (w : List av_event) (t : Nat), buffer_inv p → bounded_info p.st w →
      p.info ≠ none →
      buffer_inv (read_loop n p w t).pAAC ∧ (read_loop n p w t).pAAC.info ≠ none := by
  apply read_loop_cases n
  · intro p w t hd hinv _ hinfo
    rw [read_loop_done n p w t hd]
    exact ⟨loop_engine_inv n p t hinv, hinfo⟩
  · intro p w t hd hf hinv hb hinfo
    rw [read_loop_fail n p w t hd hf]
    obtain ⟨a, b, _⟩ := decode_one_aac_frame_inv (loop_engine n p t) w
      (loop_engine_inv n p t hinv) hb
    exact ⟨a, b hinfo⟩
  · intro p w t hd hs ih hinv hb hinfo
    obtain ⟨a, b, _⟩ := decode_one_aac_frame_inv (loop_engine n p t) w
      (loop_engine_inv n p t hinv) hb
    have hst : (decode_one_aac_frame (loop_engine n p t) w).2.1.st = p.st :=
      (decode_one_aac_frame_keeps (loop_engine n p t) w).2.1
    have hb2 : bounded_info (decode_one_aac_frame (loop_engine n p t) w).2.1.st
        (decode_one_aac_frame (loop_engine n p t) w).2.2 := by
      rw [hst]
      exact bounded_info_suffix _ _ _ (decode_one_aac_frame_suffix _ w) hb
    rw [read_loop_next n p w t hd hs]
    exact ih a hb2 (b hinfo)

theorem read_call_inv (p : ma_fdkaac) (w : List av_event) (n : Nat) (b : Bool)
    (hinv : buffer_inv p) (hb : bounded_info p.st w) (hinfo : p.info ≠ none) :
    buffer_inv (ma_fdkaac_read_pcm_frames p w n b).pAAC ∧
    (ma_fdkaac_read_pcm_frames p w n b).pAAC.info ≠ none ∧
    bounded_info (ma_fdkaac_read_pcm_frames p w n b).pAAC.st
      (ma_fdkaac_read_pcm_frames p w n b).world := by
  have hb3 : bounded_info (ma_fdkaac_read_pcm_frames p w n b).pAAC.st
      (ma_fdkaac_read_pcm_frames p w n b).world := by
    rw [read_call_keeps_st]
    exact bounded_info_suffix _ _ _ (read_call_world_suffix p w n b) hb
  rcases Nat.eq_zero_or_pos n with h | h
  · subst h
    exact ⟨hinv, hinfo, hb3⟩
  · obtain ⟨h1, h2⟩ := read_loop_inv n p w 0 hinv hb hinfo
    refine ⟨?_, ?_, hb3⟩
    · unfold buffer_inv
      rw [read_call_decode_buf_size _ _ _ _ h, read_call_decode_buf _ _ _ _ h,
        read_call_info _ _ _ _ h, read_call_start _ _ _ _ h]
      exact h1
    · rw [read_call_info _ _ _ _ h]
      exact h2

/-- An initialization that returns `MA_SUCCESS` found an AAC stream and, on
every script, is the priming refill on a fresh buffer. -/
theorem init_file_success (inp : init_input) (w : List av_event)
    (hinit : (ma_fdkaac_init_file inp w).1 = ma_result.MA_SUCCESS) :
    ∃ st, inp.streams.find? (fun s => s.is_aac) = some st ∧
      ∀ v, ma_fdkaac_init_file inp v =
        decode_one_aac_frame
          { st := some st
            decode_buf := (List.range (8 * 2048 * sizeof_INT_PCM / sizeof_INT_PCM)).map inp.fresh
            decode_buf_size := 8 * 2048 * sizeof_INT_PCM
            decode_buf_start := -1
            pcm_frame_cursor := 0
            info := none } v := by
  have h1 : inp.ds_init = ma_result.MA_SUCCESS := by
    by_contra h
    simp [ma_fdkaac_init_file, h] at hinit
  have h2 : ¬ inp.open_ret < 0 := by
    intro h
    simp [ma_fdkaac_init_file, h1, h] at hinit
  cases hf : inp.streams.find? (fun s => s.is_aac) with
  | none => simp [ma_fdkaac_init_file, h1, h2, hf] at hinit
  | some st =>
    have h4 : st.extradata_size ≠ 0 := by
      intro h
      simp [ma_fdkaac_init_file, h1, h2, hf, h] at hinit
    have h5 : inp.config = AAC_DECODER_ERROR.AAC_DEC_OK := by
      by_contra h
      simp [ma_fdkaac_init_file, h1, h2, hf, h4, h] at hinit
    exact ⟨st, rfl, fun v => init_file_priming inp v st h1 h2 hf h4 h5⟩

theorem fresh_engine_inv (st : AVStream) (fresh : Nat → Int) :
    buffer_inv
      { st := some st
        decode_buf := (List.range (8 * 2048 * sizeof_INT_PCM / sizeof_INT_PCM)).map fresh
        decode_buf_size := 8 * 2048 * sizeof_INT_PCM
        decode_buf_start := -1
        pcm_frame_cursor := 0
        info := none } := by
  refine ⟨rfl, ?_, fun i hi => by simp at hi⟩
  simp only [List.length_map, List.length_range, sizeof_INT_PCM]

theorem init_file_inv (inp : init_input) (w : List av_event)
    (hb : bounded_info (inp.streams.find? (fun s => s.is_aac)) w)
    (hinit : (ma_fdkaac_init_file inp w).1 = ma_result.MA_SUCCESS) :
    buffer_inv (ma_fdkaac_init_file inp w).2.1 ∧ (ma_fdkaac_init_file inp w).2.1.info ≠ none ∧
    bounded_info (ma_fdkaac_init_file inp w).2.1.st (ma_fdkaac_init_file inp w).2.2 := by
  obtain ⟨st, hf, hprim⟩ := init_file_success inp w hinit
  rw [hf] at hb
  rw [hprim w] at hinit ⊢
  obtain ⟨a, _, c⟩ := decode_one_aac_frame_inv _ w (fresh_engine_inv st inp.fresh) hb
  refine ⟨a, c hinit, ?_⟩
  rw [(decode_one_aac_frame_keeps _ w).2.1]
  exact bounded_info_suffix _ _ _ (decode_one_aac_frame_suffix _ w) hb

theorem decode_one_aac_frame_consumes (p : ma_fdkaac) (w : List av_event) (hw : w ≠ []) :
    (decode_one_aac_frame p w).2.2.length < w.length := by
  cases w with
  | nil => exact absurd rfl hw
  | cons ev w =>
    have hle : ∀ q, (decode_one_aac_frame q w).2.2.length < (ev :: w).length := fun q =>
      Nat.lt_succ_of_le (decode_one_aac_frame_suffix q w).length_le
    cases ev with
    | eagain => simpa only [decode_one_aac_frame] using hle p
    | failed => simp [decode_one_aac_frame]
    | packet idx fill dec =>
      simp only [decode_one_aac_frame]
      split_ifs
      · exact hle p
      · simp
      · exact hle _
      · simp
      · simp

/-- A refill that leaves the script `rest` behaves the same when another
script `x` follows the events it consumed (when nothing is left, only for the
same empty continuation). -/
theorem decode_one_aac_frame_frame (pre rest x : List av_event) :
    ∀ (p : ma_fdkaac), (decode_one_aac_frame p (pre ++ rest)).2.2 = rest →
      (rest ≠ [] ∨ x = []) →
      decode_one_aac_frame p (pre ++ x) =
        ((decode_one_aac_frame p (pre ++ rest)).1, (decode_one_aac_frame p (pre ++ rest)).2.1,
          x) := by
  induction pre with
  | nil =>
    intro p h hx
    simp only [List.nil_append] at h ⊢
    have hrest : rest = [] := by
      by_contra hne
      have := decode_one_aac_frame_consumes p rest hne
      rw [h] at this
      exact Nat.lt_irrefl _ this
    subst hrest
    rcases hx with hx | hx
    · exact absurd rfl hx
    · subst hx
      rfl
  | cons ev pre ih =>
    intro p h hx
    have hpre : pre ++ rest = rest → pre = [] := fun hh => List.append_left_eq_self.mp hh
    cases ev with
    | eagain =>
      simp only [List.cons_append, decode_one_aac_frame] at h ⊢
      exact ih p h hx
    | failed =>
      simp only [List.cons_append, decode_one_aac_frame] at h ⊢
      rw [hpre h]
      rfl
    | packet idx fill dec =>
      simp only [List.cons_append, decode_one_aac_frame] at h ⊢
      split_ifs at h ⊢
      · exact ih p h hx
      · rw [hpre h]; rfl
      · exact ih _ h hx
      · rw [hpre h]; rfl
      · rw [hpre h]; rfl

theorem script_split (pre rest w2 w : List av_event) (hw : w = pre ++ rest)
    (h1 : rest <:+ w2) (h2 : w2 <:+ w) :
    ∃ pre1 pre2, pre = pre1 ++ pre2 ∧ w = pre1 ++ w2 ∧ w2 = pre2 ++ rest := by
  obtain ⟨pre2, hp2⟩ := h1
  obtain ⟨pre1, hp1⟩ := h2
  refine ⟨pre1, pre2, ?_, hp1.symm, hp2.symm⟩
  have : pre ++ rest = (pre1 ++ pre2) ++ rest := by
    rw [← hw, List.append_assoc, hp2, hp1]
  exact List.append_cancel_right this

theorem continuation_cases (pre2 rest x : List av_event) (hx : rest ≠ [] ∨ x = []) :
    pre2 ++ rest ≠ [] ∨ pre2 ++ x = [] := by
  rcases hx with hx | hx
  · left
    intro h
    exact hx (List.append_eq_nil.mp h).2
  · subst hx
    cases pre2 with
    | nil => right; rfl
    | cons e l => left; simp

theorem read_loop_frame (n : Nat) :
    ∀ (p : ma_fdkaac) (w : List av_event) (t : Nat) (pre rest x : List av_event),
      w = pre ++ rest → (read_loop n p w t).world = rest → (rest ≠ [] ∨ x = []) →
      read_loop n p (pre ++ x) t = { read_loop n p w t with world := x } := by
  apply read_loop_cases n
  · intro p w t hd pre rest x hw hworld _
    rw [read_loop_done n p w t hd] at hworld ⊢
    simp only at hworld
    rw [hw] at hworld
    rw [List.append_left_eq_self.mp hworld, List.nil_append, read_loop_done n p x t hd]
  · intro p w t hd hf pre rest x hw hworld hx
    rw [read_loop_fail n p w t hd hf] at hworld ⊢
    simp only at hworld
    subst hw
    have hfr := decode_one_aac_frame_frame pre rest x (loop_engine n p t) hworld hx
    have hf2 : (decode_one_aac_frame (loop_engine n p t) (pre ++ x)).1
        ≠ ma_result.MA_SUCCESS := by rw [hfr]; exact hf
    rw [read_loop_fail n p (pre ++ x) t hd hf2, hfr]
  · intro p w t hd hs ih pre rest x hw hworld hx
    rw [read_loop_next n p w t hd hs] at hworld ⊢
    simp only at hworld
    have hsuf1 : rest <:+ (decode_one_aac_frame (loop_engine n p t) w).2.2 := by
      rw [← hworld]; exact read_loop_world_suffix n _ _ _
    obtain ⟨pre1, pre2, hpre, hw1, hw2⟩ := script_split pre rest _ w hw hsuf1
      (decode_one_aac_frame_suffix _ w)
    have hdec2 : (decode_one_aac_frame (loop_engine n p t)
        (pre1 ++ (decode_one_aac_frame (loop_engine n p t) w).2.2)).2.2 =
        (decode_one_aac_frame (loop_engine n p t) w).2.2 := by rw [← hw1]
    have hfr := decode_one_aac_frame_frame pre1 _ (pre2 ++ x) (loop_engine n p t) hdec2
      (by rw [hw2]; exact continuation_cases pre2 rest x hx)
    rw [← hw1] at hfr
    have hrec := ih pre2 rest x hw2 hworld hx
    have hs2 : (decode_one_aac_frame (loop_engine n p t) (pre ++ x)).1
        = ma_result.MA_SUCCESS := by
      rw [hpre, List.append_assoc, hfr]; exact hs
    rw [read_loop_next n p (pre ++ x) t hd hs2]
    have hfr2 : decode_one_aac_frame (loop_engine n p t) (pre ++ x) =
        ((decode_one_aac_frame (loop_engine n p t) w).1,
          (decode_one_aac_frame (loop_engine n p t) w).2.1, pre2 ++ x) := by
      rw [hpre, List.append_assoc, hfr]
    rw [hfr2]
    simp only
    rw [hrec]

theorem read_call_frame (p : ma_fdkaac) (w : List av_event) (n : Nat) (b : Bool)
    (pre rest x : List av_event) (hw : w = pre ++ rest)
    (hworld : (ma_fdkaac_read_pcm_frames p w n b).world = rest) (hx : rest ≠ [] ∨ x = []) :
    ma_fdkaac_read_pcm_frames p (pre ++ x) n b =
      { ma_fdkaac_read_pcm_frames p w n b with world := x } := by
  rcases Nat.eq_zero_or_pos n with h | h
  · subst h
    have h1 : (ma_fdkaac_read_pcm_frames p w 0 b).world = w := rfl
    rw [h1, hw] at hworld
    rw [List.append_left_eq_self.mp hworld]
    rfl
  · rw [read_call_world _ _ _ _ h] at hworld
    have hl := read_loop_frame n p w 0 pre rest x hw hworld hx
    unfold ma_fdkaac_read_pcm_frames
    rw [if_neg (by omega), if_neg (by omega)]
    simp only [hl]

/-- C2 (behaviour at the failing input): the stream holds one decodable
packet (frames 5 and 6) and a truncated last packet.  Initialization
succeeds; a read of two frames delivers 5 and 6; the next read refills,
the decoder answers `AAC_DEC_NOT_ENOUGH_BITS`, line 203 resets the cursor
to 0, the demuxer is at the end and the read returns `MA_AT_END` with no
frame; the read after that delivers frame 5 a second time.  The callers
received 5, 6, 5, which is no prefix of the decoded samples 5, 6. -/
theorem stale_frame_after_failed_refill :
    (ma_fdkaac_init_file example_init [packet_5_6, packet_truncated]).1
      = ma_result.MA_SUCCESS ∧
    produced_pcm (some example_stream) [packet_5_6, packet_truncated] = [5, 6] ∧
    run_reads_out (ma_fdkaac_init_file example_init [packet_5_6, packet_truncated]).2.1
      (ma_fdkaac_init_file example_init [packet_5_6, packet_truncated]).2.2
      [(2, true), (1, true), (1, true)] = [5, 6, 5] ∧
    ¬ (run_reads_out (ma_fdkaac_init_file example_init [packet_5_6, packet_truncated]).2.1
        (ma_fdkaac_init_file example_init [packet_5_6, packet_truncated]).2.2
        [(2, true), (1, true), (1, true)] <+:
      produced_pcm (some example_stream) [packet_5_6, packet_truncated]) := by
  rw [init_file_priming example_init [packet_5_6, packet_truncated] example_stream rfl
    (by decide) rfl (by decide) rfl]
  generalize (List.range (8 * 2048 * sizeof_INT_PCM / sizeof_INT_PCM)).map example_init.fresh
    = fresh
  have hout : run_reads_out
      (decode_one_aac_frame
        { st := some example_stream, decode_buf := fresh,
          decode_buf_size := 8 * 2048 * sizeof_INT_PCM, decode_buf_start := -1,
          pcm_frame_cursor := 0, info := none } [packet_5_6, packet_truncated]).2.1
      (decode_one_aac_frame
        { st := some example_stream, decode_buf := fresh,
          decode_buf_size := 8 * 2048 * sizeof_INT_PCM, decode_buf_start := -1,
          pcm_frame_cursor := 0, info := none } [packet_5_6, packet_truncated]).2.2
      [(2, true), (1, true), (1, true)] = [5, 6, 5] := by
    simp [run_reads_out, ma_fdkaac_read_pcm_frames, read_loop, drain, decode_one_aac_frame,
      packet_5_6, packet_truncated, example_info, example_stream, numChannels, frameSize,
      decode_buf_end, toI32, toU32, copy_frame, sample_index, after_DecodeFrame, fetch_info,
      store_pcm, capacity, sizeof_INT_PCM, List.range, List.range.loop]
  have hprod : produced_pcm (some example_stream) [packet_5_6, packet_truncated] = [5, 6] := by
    simp [produced_pcm, packet_5_6, packet_truncated, example_stream]
  rw [hout, hprod]
  refine ⟨?_, rfl, rfl, by decide⟩
  simp [decode_one_aac_frame, packet_5_6, example_stream, example_info, fetch_info,
    after_DecodeFrame]

/-! ## Delivery in decode order when no refill fails after a decode -/

theorem drain_grid_samples (C F : Nat) (buf : List Int) (hCF : C * F ≤ 16384)
    (hlen : C * F ≤ buf.length) (hbuf : buf.length < 4294967296) :
    ∀ (k m : Nat), m ≤ F →
      ∃ f : Nat, m + f ≤ F ∧
        (drain C ((C * F : Nat) : Int) buf k ((m * C : Nat) : Int)).start =
          (((m + f) * C : Nat) : Int) ∧
        (drain C ((C * F : Nat) : Int) buf k ((m * C : Nat) : Int)).samples =
          (buf.drop (m * C)).take (f * C) := by
  have hstep : ∀ m : Nat, ((m * C : Nat) : Int) < ((C * F : Nat) : Int) →
      m + 1 ≤ F ∧ toI32 (toU32 ((m * C : Nat) : Int) + C) = (((m + 1) * C : Nat) : Int) ∧
      copy_frame C buf ((m * C : Nat) : Int) = (buf.drop (m * C)).take C := by
    intro m h
    have h1 : m * C < C * F := by exact_mod_cast h
    have hmF : m < F := by
      by_contra hge
      have h2 : F ≤ m := Nat.le_of_not_lt hge
      have h3 : F * C ≤ m * C := Nat.mul_le_mul_right C h2
      rw [Nat.mul_comm F C] at h3
      omega
    have hle : (m + 1) * C ≤ F * C := Nat.mul_le_mul_right C hmF
    rw [Nat.mul_comm F C] at hle
    have hexp : (m + 1) * C = m * C + C := Nat.succ_mul m C
    refine ⟨hmF, ?_, ?_⟩
    · rw [toU32_of_range _ (Int.natCast_nonneg _) (by omega), Int.toNat_ofNat,
        toI32_of_small _ (by omega), hexp]
    · have := copy_frame_inside C buf ((m * C : Nat) : Int) (Int.natCast_nonneg _)
        (by rw [Int.toNat_ofNat]; omega) (by omega)
      rw [this, Int.toNat_ofNat]
  intro k
  induction k with
  | zero =>
    intro m hm
    by_cases h : ((m * C : Nat) : Int) < ((C * F : Nat) : Int)
    · obtain ⟨a, b, c⟩ := hstep m h
      refine ⟨1, a, ?_, ?_⟩
      · simp only [drain, if_pos h, b]
      · simp only [drain, if_pos h, c, Nat.one_mul]
    · exact ⟨0, by omega, by simp only [drain, if_neg h, Nat.add_zero],
        by simp only [drain, if_neg h, Nat.zero_mul, List.take_zero]⟩
  | succ k ih =>
    intro m hm
    by_cases h : ((m * C : Nat) : Int) < ((C * F : Nat) : Int)
    · obtain ⟨a, b, c⟩ := hstep m h
      obtain ⟨f, hf1, hf2, hf3⟩ := ih (m + 1) a
      refine ⟨f + 1, by omega, ?_, ?_⟩
      · simp only [drain, if_pos h, b, hf2]
        congr 2
        ring
      · simp only [drain, if_pos h, b, c, hf3]
        have h1 : (f + 1) * C = C + f * C := by ring
        have h2 : (m + 1) * C = m * C + C := by ring
        rw [h1, List.take_add, List.drop_drop, h2]
    · exact ⟨0, by omega, by simp only [drain, if_neg h, Nat.add_zero],
        by simp only [drain, if_neg h, Nat.zero_mul, List.take_zero]⟩

theorem take_drop_split (l : List Int) (a f e : Nat) (h : a + f ≤ e) :
    (l.drop a).take f ++ (l.take e).drop (a + f) = (l.take e).drop a := by
  rw [List.drop_take, List.drop_take]
  have h1 : e - a = f + (e - (a + f)) := by omega
  rw [h1, List.take_add, List.drop_drop]

/-- Draining hands out the unread samples in buffer order: what one run of
the `for` loop stores, followed by what is unread afterwards, is what was
unread before. -/
theorem loop_drain_unread (n : Nat) (p : ma_fdkaac) (t : Nat) (h : buffer_inv p)
    (hinfo : p.info ≠ none) :
    (loop_drain n p t).samples ++ unread (loop_engine n p t) = unread p ∧
    ((loop_drain n p t).done = false → unread (loop_engine n p t) = []) := by
  obtain ⟨hsize, hlen, hi⟩ := h
  cases hp : p.info with
  | none => exact absurd hp hinfo
  | some i =>
    obtain ⟨h0, h1, h2, h3, h4, m, hm, hmF⟩ := hi i hp
    obtain ⟨hnc, hfs, hend, hCF⟩ := region_of_info p i hp h0 h1 h2 h3 h4
    have hC : i.numChannels = (i.numChannels.toNat : Int) := (Int.toNat_of_nonneg h0).symm
    have hF : i.frameSize = (i.frameSize.toNat : Int) := (Int.toNat_of_nonneg h2).symm
    generalize i.numChannels.toNat = C at hnc hend hCF hC
    generalize i.frameSize.toNat = F at hfs hend hCF hF
    rw [hC] at hm
    rw [hF] at hmF
    have hmF2 : m ≤ F := by exact_mod_cast hmF
    have hstart : p.decode_buf_start = ((m * C : Nat) : Int) := by rw [hm]; push_cast; rfl
    obtain ⟨f, hf1, hf2, hf3⟩ := drain_grid_samples C F p.decode_buf hCF (by omega) (by omega)
      (n - t - 1) m hmF2
    have hend2 : decode_buf_end (loop_engine n p t) = ((C * F : Nat) : Int) := hend
    have hdstart : (loop_drain n p t).start = (((m + f) * C : Nat) : Int) := by
      unfold loop_drain
      rw [hnc, hend, hstart, hf2]
    have hdsamples : (loop_drain n p t).samples = (p.decode_buf.drop (m * C)).take (f * C) := by
      unfold loop_drain
      rw [hnc, hend, hstart, hf3]
    have hun1 : unread (loop_engine n p t) = (p.decode_buf.take (C * F)).drop ((m + f) * C) := by
      unfold unread
      rw [hend2]
      show List.drop (loop_drain n p t).start.toNat _ = _
      rw [hdstart, Int.toNat_ofNat, Int.toNat_ofNat]
      rfl
    have hun0 : unread p = (p.decode_buf.take (C * F)).drop (m * C) := by
      unfold unread
      rw [hend, hstart, Int.toNat_ofNat, Int.toNat_ofNat]
    have hle : (m + f) * C ≤ F * C := Nat.mul_le_mul_right C hf1
    constructor
    · rw [hun1, hun0, hdsamples, Nat.add_mul]
      exact take_drop_split p.decode_buf (m * C) (f * C) (C * F)
        (by rw [← Nat.add_mul, Nat.mul_comm C F]; exact hle)
    · intro hd
      have hnot := (drain_counts (numChannels p) (decode_buf_end p) p.decode_buf (n - t - 1)
        p.decode_buf_start).2.2.2 hd
      have hnot2 : ¬ (loop_drain n p t).start < decode_buf_end p := hnot
      rw [hdstart, hend] at hnot2
      have hge : C * F ≤ (m + f) * C := by
        have : ¬ ((m + f) * C < C * F) := fun hlt => hnot2 (by exact_mod_cast hlt)
        omega
      rw [hun1]
      apply List.drop_eq_nil_of_le
      rw [List.length_take]
      omega

theorem fetch_after_decode (p : ma_fdkaac) (dec : DecodeFrameResult) (i : CStreamInfo)
    (hd : dec.info = some i) (hr : 0 < i.sampleRate) :
    (fetch_info (after_DecodeFrame p dec) dec).1 = ma_result.MA_SUCCESS ∧
    (fetch_info (after_DecodeFrame p dec) dec).2.info = some i ∧
    (fetch_info (after_DecodeFrame p dec) dec).2.decode_buf =
      store_pcm p.decode_buf dec.pcm (capacity p) ∧
    (fetch_info (after_DecodeFrame p dec) dec).2.decode_buf_start = 0 := by
  cases hp : p.info with
  | none =>
    have h1 : (after_DecodeFrame p dec).info = none := by
      simp [after_DecodeFrame, hp]
    have h2 : fetch_info (after_DecodeFrame p dec) dec =
        (ma_result.MA_SUCCESS, { after_DecodeFrame p dec with info := some i }) := by
      simp only [fetch_info, h1, hd]
      rw [if_neg (by omega)]
    rw [h2]
    exact ⟨rfl, rfl, rfl, rfl⟩
  | some j =>
    have h1 : (after_DecodeFrame p dec).info = some i := by
      simp [after_DecodeFrame, hp, hd]
    have h2 : fetch_info (after_DecodeFrame p dec) dec =
        (ma_result.MA_SUCCESS, after_DecodeFrame p dec) := by
      simp only [fetch_info, h1]
    rw [h2]
    exact ⟨rfl, h1, rfl, rfl⟩

theorem refill_produces (p : ma_fdkaac) (w : List av_event) (hinv : buffer_inv p)
    (hclean : clean_script p.st w) (hb : bounded_info p.st w) (hx : exact_frames w) :
    ((decode_one_aac_frame p w).1 = ma_result.MA_SUCCESS →
      unread (decode_one_aac_frame p w).2.1 ++ produced_pcm p.st (decode_one_aac_frame p w).2.2
        = produced_pcm p.st w) ∧
    ((decode_one_aac_frame p w).1 ≠ ma_result.MA_SUCCESS → produced_pcm p.st w = []) := by
  induction w generalizing p with
  | nil => exact ⟨fun h => by simp [decode_one_aac_frame] at h, fun _ => rfl⟩
  | cons ev w ih =>
    have hclean2 : clean_script p.st w := fun e he => hclean e (List.mem_cons_of_mem _ he)
    have hb2 : bounded_info p.st w :=
      fun idx fill dec hm => hb idx fill dec (List.mem_cons_of_mem _ hm)
    have hx2 : exact_frames w :=
      fun idx fill dec hm => hx idx fill dec (List.mem_cons_of_mem _ hm)
    have hev : clean_event p.st ev := hclean ev (List.mem_cons_self _ _)
    cases ev with
    | eagain => simpa [decode_one_aac_frame, produced_pcm] using ih p hinv hclean2 hb2 hx2
    | failed => exact absurd hev (by simp [clean_event])
    | packet idx fill dec =>
      simp only [decode_one_aac_frame]
      by_cases hidx : some idx ≠ p.st.map AVStream.index
      · rw [if_pos hidx]
        have hprod : produced_pcm p.st (av_event.packet idx fill dec :: w) = produced_pcm p.st w := by
          simp only [produced_pcm]
          rw [if_neg (fun h => hidx h.1)]
        rw [hprod]
        exact ih p hinv hclean2 hb2 hx2
      · rw [if_neg hidx]
        simp only [clean_event] at hev
        rcases hev with hev | ⟨hfill, herr, i, hi, hrate⟩
        · exact absurd hev hidx
        · rw [if_neg (by simp [hfill]), if_neg (by simp [herr]), if_neg (by simp [herr])]
          obtain ⟨f1, f2, f3, f4⟩ := fetch_after_decode p dec i hi hrate
          obtain ⟨b0, b1, b2, b3, b4⟩ :=
            hb idx fill dec (List.mem_cons_self _ _) (not_not.mp hidx) hfill i hi
          have hlenpcm := hx idx fill dec (List.mem_cons_self _ _) i hi
          obtain ⟨hnc, hfs, hend, hCF⟩ :=
            region_of_info (fetch_info (after_DecodeFrame p dec) dec).2 i f2 b0 b1 b2 b3 b4
          have hC : i.numChannels = (i.numChannels.toNat : Int) := (Int.toNat_of_nonneg b0).symm
          have hF : i.frameSize = (i.frameSize.toNat : Int) := (Int.toNat_of_nonneg b2).symm
          have hlen2 : dec.pcm.length = i.numChannels.toNat * i.frameSize.toNat := by
            rw [hC, hF] at hlenpcm
            exact_mod_cast hlenpcm
          have hcap : capacity p = 16384 := by
            unfold capacity sizeof_INT_PCM
            rw [hinv.1]
            rfl
          have hun : unread (fetch_info (after_DecodeFrame p dec) dec).2 = dec.pcm := by
            have htake : dec.pcm.take 16384 = dec.pcm := List.take_of_length_le (by omega)
            unfold unread
            rw [hend, f3, f4, Int.toNat_ofNat, ← hlen2]
            unfold store_pcm
            rw [hcap, htake]
            simp
          have hidx2 : some idx = p.st.map AVStream.index := not_not.mp hidx
          have hprod : produced_pcm p.st (av_event.packet idx fill dec :: w) =
              dec.pcm ++ produced_pcm p.st w := by
            simp only [produced_pcm]
            rw [if_pos ⟨hidx2, hfill, herr⟩]
          rw [hprod]
          refine ⟨fun _ => by rw [hun], fun hne => absurd f1 hne⟩

theorem produced_pcm_suffix_clean (p : ma_fdkaac) (w : List av_event) :
    clean_script p.st w → bounded_info p.st w → exact_frames w →
      clean_script (decode_one_aac_frame p w).2.1.st (decode_one_aac_frame p w).2.2 ∧
      bounded_info (decode_one_aac_frame p w).2.1.st (decode_one_aac_frame p w).2.2 ∧
      exact_frames (decode_one_aac_frame p w).2.2 := by
  intro h1 h2 h3
  have hs := decode_one_aac_frame_suffix p w
  exact ⟨clean_script_after_refill p w h1,
    by rw [(decode_one_aac_frame_keeps p w).2.1]; exact bounded_info_suffix _ _ _ hs h2,
    fun idx fill dec hm => h3 idx fill dec (hs.subset hm)⟩

theorem read_loop_conserves (n : Nat) :
    ∀ (p : ma_fdkaac) (w : List av_event) (t : Nat), buffer_inv p → p.info ≠ none →
      clean_script p.st w → bounded_info p.st w → exact_frames w →
      (read_loop n p w t).pcmOut ++ (unread (read_loop n p w t).pAAC ++
          produced_pcm p.st (read_loop n p w t).world) =
        unread p ++ produced_pcm p.st w := by
  apply read_loop_cases n
  · intro p w t hd hinv hinfo _ _ _
    rw [read_loop_done n p w t hd]
    simp only
    rw [← List.append_assoc, (loop_drain_unread n p t hinv hinfo).1]
  · intro p w t hd hf hinv hinfo hclean hb hx
    have hcl : clean_script (loop_engine n p t).st w := hclean
    have hdec := decode_one_aac_frame_clean (loop_engine n p t) w hcl hf
    have hnil := (refill_produces (loop_engine n p t) w (loop_engine_inv n p t hinv) hcl hb hx).2 hf
    have hnil2 : produced_pcm p.st w = [] := hnil
    rw [read_loop_fail n p w t hd hf, hdec]
    simp only
    rw [hnil2, ← List.append_assoc, (loop_drain_unread n p t hinv hinfo).1]
    simp [produced_pcm]
  · intro p w t hd hs ih hinv hinfo hclean hb hx
    have hcl : clean_script (loop_engine n p t).st w := hclean
    have hinv1 := loop_engine_inv n p t hinv
    obtain ⟨a, b, _⟩ := decode_one_aac_frame_inv (loop_engine n p t) w hinv1 hb
    obtain ⟨c1, c2, c3⟩ := produced_pcm_suffix_clean (loop_engine n p t) w hcl hb hx
    have hst : (decode_one_aac_frame (loop_engine n p t) w).2.1.st = p.st :=
      (decode_one_aac_frame_keeps (loop_engine n p t) w).2.1
    have hrec := ih a (b hinfo) c1 c2 c3
    rw [hst] at hrec
    have hprod := (refill_produces (loop_engine n p t) w hinv1 hcl hb hx).1 hs
    have hprod2 : unread (decode_one_aac_frame (loop_engine n p t) w).2.1 ++
        produced_pcm p.st (decode_one_aac_frame (loop_engine n p t) w).2.2 =
        produced_pcm p.st w := hprod
    obtain ⟨d1, d2⟩ := loop_drain_unread n p t hinv hinfo
    rw [d2 hd, List.append_nil] at d1
    rw [read_loop_next n p w t hd hs]
    simp only
    rw [List.append_assoc, hrec, hprod2, d1]

theorem read_call_conserves (p : ma_fdkaac) (w : List av_event) (n : Nat) (b : Bool)
    (hinv : buffer_inv p) (hinfo : p.info ≠ none) (hclean : clean_script p.st w)
    (hb : bounded_info p.st w) (hx : exact_frames w) :
    (ma_fdkaac_read_pcm_frames p w n b).pcmOut ++
        (unread (ma_fdkaac_read_pcm_frames p w n b).pAAC ++
          produced_pcm p.st (ma_fdkaac_read_pcm_frames p w n b).world) =
      unread p ++ produced_pcm p.st w := by
  rcases Nat.eq_zero_or_pos n with h | h
  · subst h
    simp [ma_fdkaac_read_pcm_frames]
  · have hun : unread (ma_fdkaac_read_pcm_frames p w n b).pAAC =
        unread (read_loop n p w 0).pAAC := by
      unfold unread decode_buf_end numChannels frameSize
      rw [read_call_info _ _ _ _ h, read_call_decode_buf _ _ _ _ h, read_call_start _ _ _ _ h]
    rw [hun, read_call_pcmOut _ _ _ _ h, read_call_world _ _ _ _ h]
    exact read_loop_conserves n p w 0 hinv hinfo hclean hb hx

theorem run_reads_conserves (calls : List (Nat × Bool)) :
    ∀ (p : ma_fdkaac) (w : List av_event), buffer_inv p → p.info ≠ none →
      clean_script p.st w → bounded_info p.st w → exact_frames w →
      run_reads_out p w calls ++
          (unread (run_reads p w calls).1 ++ produced_pcm p.st (run_reads p w calls).2) =
        unread p ++ produced_pcm p.st w := by
  induction calls with
  | nil => intro p w _ _ _ _ _; rfl
  | cons c calls ih =>
    intro p w hinv hinfo hclean hb hx
    obtain ⟨n, b⟩ := c
    obtain ⟨h1, h2, h3⟩ := read_call_inv p w n b hinv hb hinfo
    have hst : (ma_fdkaac_read_pcm_frames p w n b).pAAC.st = p.st := by
      rcases Nat.eq_zero_or_pos n with h | h
      · subst h; rfl
      · rw [read_call_st _ _ _ _ h, (read_loop_keeps n p w 0).2.1]
    have hsuf : (ma_fdkaac_read_pcm_frames p w n b).world <:+ w := by
      rcases Nat.eq_zero_or_pos n with h | h
      · subst h; exact List.suffix_refl _
      · rw [read_call_world _ _ _ _ h]; exact read_loop_world_suffix n p w 0
    have hclean2 : clean_script (ma_fdkaac_read_pcm_frames p w n b).pAAC.st
        (ma_fdkaac_read_pcm_frames p w n b).world := by
      rw [hst]
      exact fun e he => hclean e (hsuf.subset he)
    have hx2 : exact_frames (ma_fdkaac_read_pcm_frames p w n b).world :=
      fun idx fill dec hm => hx idx fill dec (hsuf.subset hm)
    have hrec := ih _ _ h1 h2 hclean2 h3 hx2
    rw [hst] at hrec
    simp only [run_reads_out, run_reads]
    rw [List.append_assoc, hrec]
    exact read_call_conserves p w n b hinv hinfo hclean hb hx

/-- Delivery in decode order when no refill fails after a decode: after a
successful initialization on a script whose only failure is its end and
whose decodes store exactly the frames they announce, the samples any
sequence of read calls hands to the callers form a prefix of the decoded
samples, the priming frame included. -/
theorem delivery_in_decode_order (inp : init_input) (w : List av_event)
    (calls : List (Nat × Bool))
    (hclean : clean_script (inp.streams.find? (fun s => s.is_aac)) w)
    (hb : bounded_info (inp.streams.find? (fun s => s.is_aac)) w) (hx : exact_frames w)
    (hinit : (ma_fdkaac_init_file inp w).1 = ma_result.MA_SUCCESS) :
    run_reads_out (ma_fdkaac_init_file inp w).2.1 (ma_fdkaac_init_file inp w).2.2 calls <+:
      produced_pcm (inp.streams.find? (fun s => s.is_aac)) w := by
  obtain ⟨i1, i2, i3⟩ := init_file_inv inp w hb hinit
  obtain ⟨st, hf, hprim⟩ := init_file_success inp w hinit
  rw [hf] at hclean hb ⊢
  rw [hprim w] at hinit i1 i2 i3 ⊢
  generalize hp0 : ({ st := some st
                      decode_buf :=
                        (List.range (8 * 2048 * sizeof_INT_PCM / sizeof_INT_PCM)).map inp.fresh
                      decode_buf_size := 8 * 2048 * sizeof_INT_PCM
                      decode_buf_start := -1
                      pcm_frame_cursor := 0
                      info := none } : ma_fdkaac) = p0 at hinit i1 i2 i3 ⊢
  have hp0st : p0.st = some st := by rw [← hp0]
  have hfresh : buffer_inv p0 := by
    rw [← hp0]
    exact fresh_engine_inv st inp.fresh
  have hclean0 : clean_script p0.st w := by rw [hp0st]; exact hclean
  have hb0 : bounded_info p0.st w := by rw [hp0st]; exact hb
  have hprod := (refill_produces p0 w hfresh hclean0 hb0 hx).1 hinit
  obtain ⟨c1, _, c3⟩ := produced_pcm_suffix_clean p0 w hclean0 hb0 hx
  have hcons := run_reads_conserves calls _ _ i1 i2 c1 i3 c3
  rw [(decode_one_aac_frame_keeps p0 w).2.1] at hcons
  rw [hprod, hp0st] at hcons
  exact ⟨_, hcons⟩

/-! ## The example engines are initialized -/

theorem engine_one_left_initialized : initialized engine_one_left := by
  refine ⟨⟨rfl, ?_, ?_⟩, by simp [engine_one_left]⟩
  · simp only [engine_one_left, example_tail, List.length_cons, List.length_replicate]
  · intro i hi
    have hi2 : example_info = i := by simpa [engine_one_left] using hi
    subst hi2
    exact ⟨by decide, by decide, by decide, by decide, by decide, 1, by decide, by decide⟩

/-! ## The scratch-cursor invariant after a successful initialization -/

/-- C4 (amended): on an engine state in which read stays inside the scratch
buffer, a read never copies more frames than requested; when the channel
count read uses stays `c` throughout the call (it is `c` at entry and every
stream info the decoder reports for the packets the call consumes has `c`
channels), the samples stored are exactly `framesCopied * c`, hence at most
`frameCount * c`. -/
theorem read_frames_and_samples (p : ma_fdkaac) (w : List av_event) (n : Nat) (b : Bool)
    (c : Nat) (_hsafe : safe_engine p) :
    (ma_fdkaac_read_pcm_frames p w n b).framesCopied ≤ n ∧
    (∀ v, (ma_fdkaac_read_pcm_frames p w n b).pFramesRead = some v → v ≤ n) ∧
    (∀ consumed, w = consumed ++ (ma_fdkaac_read_pcm_frames p w n b).world →
      channels_fixed c p consumed →
      (ma_fdkaac_read_pcm_frames p w n b).pcmOut.length =
        (ma_fdkaac_read_pcm_frames p w n b).framesCopied * c ∧
      (ma_fdkaac_read_pcm_frames p w n b).pcmOut.length ≤ n * c) := by
  have hframes : (ma_fdkaac_read_pcm_frames p w n b).framesCopied ≤ n := by
    rcases Nat.eq_zero_or_pos n with h | h
    · subst h
      simp [ma_fdkaac_read_pcm_frames]
    · rw [read_call_framesCopied _ _ _ _ h]
      exact (read_loop_counts n p w 0 h).2.1
  refine ⟨hframes, ?_, ?_⟩
  · intro v hv
    rcases Nat.eq_zero_or_pos n with h | h
    · subst h
      cases b <;> simp [ma_fdkaac_read_pcm_frames] at hv
      omega
    · rw [read_call_pFramesRead _ _ _ _ h] at hv
      rw [read_call_framesCopied _ _ _ _ h] at hframes
      cases b
      · simp at hv
      · simp only [if_true, Option.some.injEq] at hv
        rw [← hv]
        exact hframes
  · intro consumed hcons hfix
    have hfr := read_call_frame p w n b consumed _ [] hcons rfl (Or.inr rfl)
    rw [List.append_nil] at hfr
    have hout : (ma_fdkaac_read_pcm_frames p w n b).pcmOut =
        (ma_fdkaac_read_pcm_frames p consumed n b).pcmOut := by rw [hfr]
    have hcount : (ma_fdkaac_read_pcm_frames p w n b).framesCopied =
        (ma_fdkaac_read_pcm_frames p consumed n b).framesCopied := by rw [hfr]
    have hlen : (ma_fdkaac_read_pcm_frames p consumed n b).pcmOut.length =
        (ma_fdkaac_read_pcm_frames p consumed n b).framesCopied * c := by
      rcases Nat.eq_zero_or_pos n with h | h
      · subst h
        simp [ma_fdkaac_read_pcm_frames]
      · rw [read_call_pcmOut _ _ _ _ h, read_call_framesCopied _ _ _ _ h]
        have hs := read_loop_samples n c p consumed 0 hfix
        simp only [Nat.zero_mul, Nat.add_zero] at hs
        exact hs
    rw [hout, hlen, ← hcount]
    exact ⟨rfl, Nat.mul_le_mul_right c hframes⟩

theorem read_frames_and_samples_witness :
    safe_engine engine_one_left ∧
    (ma_fdkaac_read_pcm_frames engine_one_left [packet_7_8, packet_stereo] 2 true).world
      = [packet_stereo] ∧
    channels_fixed 1 engine_one_left [packet_7_8] ∧
    (ma_fdkaac_read_pcm_frames engine_one_left [packet_7_8, packet_stereo] 2 true).pcmOut.length =
      (ma_fdkaac_read_pcm_frames engine_one_left [packet_7_8, packet_stereo] 2
        true).framesCopied * 1 :=
  have hsafe : safe_engine engine_one_left :=
    ⟨engine_one_left_initialized.1, fun h => absurd h engine_one_left_initialized.2⟩
  have hworld :
      (ma_fdkaac_read_pcm_frames engine_one_left [packet_7_8, packet_stereo] 2 true).world
        = [packet_stereo] := by
    simp [ma_fdkaac_read_pcm_frames, read_loop, drain, decode_one_aac_frame, engine_one_left,
      packet_7_8, example_info, example_stream, numChannels, frameSize, decode_buf_end, toI32,
      toU32, copy_frame, sample_index, after_DecodeFrame, fetch_info, store_pcm, capacity,
      sizeof_INT_PCM, List.range, List.range.loop]
  have hfix : channels_fixed 1 engine_one_left [packet_7_8] := by
    refine ⟨by decide, ?_⟩
    intro idx fill dec hm _ _ i hi
    simp only [packet_7_8, List.mem_singleton, av_event.packet.injEq] at hm
    rw [hm.2.2] at hi
    simp only [Option.some.injEq] at hi
    rw [← hi]
    decide
  ⟨hsafe, hworld, hfix,
    ((read_frames_and_samples engine_one_left [packet_7_8, packet_stereo] 2 true 1 hsafe).2.2
      [packet_7_8] (by rw [hworld]; rfl) hfix).1⟩

/-! ## Status of a read, by the refill that fails -/

theorem loop_head_result (n : Nat) :
    ∀ (k : Nat) (p : ma_fdkaac) (w : List av_event) (t : Nat) (q : ma_fdkaac)
      (v : List av_event) (u : Nat), loop_head n k p w t = some (q, v, u) →
      (read_loop n p w t).result = (read_loop n q v u).result ∧
      (read_loop n p w t).totalPCMFramesRead = (read_loop n q v u).totalPCMFramesRead ∧
      (read_loop n p w t).pAAC = (read_loop n q v u).pAAC ∧
      (read_loop n p w t).world = (read_loop n q v u).world := by
  intro k
  induction k with
  | zero =>
    intro p w t q v u h
    simp only [loop_head, Option.some.injEq, Prod.mk.injEq] at h
    obtain ⟨h1, h2, h3⟩ := h
    subst h1 h2 h3
    exact ⟨rfl, rfl, rfl, rfl⟩
  | succ k ih =>
    intro p w t q v u h
    simp only [loop_head] at h
    split_ifs at h with hd hf
    have hd2 : (loop_drain n p t).done = false := by simpa using hd
    have hs : (decode_one_aac_frame (loop_engine n p t) w).1 = ma_result.MA_SUCCESS :=
      not_not.mp hf
    rw [read_loop_next n p w t hd2 hs]
    exact ih _ _ _ q v u h

theorem loop_head_of_failure (n : Nat) :
    ∀ (p : ma_fdkaac) (w : List av_event) (t : Nat),
      (read_loop n p w t).result ≠ ma_result.MA_SUCCESS →
      ∃ k q v u, loop_head n k p w t = some (q, v, u) ∧
        (loop_drain n q u).done = false ∧
        (decode_one_aac_frame (loop_engine n q u) v).1 ≠ ma_result.MA_SUCCESS := by
  apply read_loop_cases n
  · intro p w t hd hne
    rw [read_loop_done n p w t hd] at hne
    exact absurd rfl hne
  · intro p w t hd hf _
    exact ⟨0, p, w, t, rfl, hd, hf⟩
  · intro p w t hd hs ih hne
    rw [read_loop_next n p w t hd hs] at hne
    obtain ⟨k, q, v, u, h1, h2, h3⟩ := ih hne
    refine ⟨k + 1, q, v, u, ?_, h2, h3⟩
    simp only [loop_head]
    rw [if_neg (by simp [hd]), if_neg (by simp [hs])]
    exact h1

/-- C1 (amended): on an initialized engine a read of `n > 0` frames returns
`MA_SUCCESS` exactly when all `n` frames were copied.  Whenever the loop,
after any number of successful refills, drains the buffer without reaching
`n` frames and the refill it then calls fails, the call returns the result
code of that very refill, `MA_AT_END` or `MA_ERROR`, with the frames copied
so far, none or more, and leaves the script where that refill left it; and a
call that copies fewer than `n` frames always ends at such a failing
refill. -/
theorem read_status_on_refill_failure (p : ma_fdkaac) (w : List av_event) (n : Nat)
    (b : Bool) (_hinit : initialized p) (hn : 0 < n) :
    (ma_fdkaac_read_pcm_frames p w n b).framesCopied ≤ n ∧
    ((ma_fdkaac_read_pcm_frames p w n b).result = ma_result.MA_SUCCESS ↔
      (ma_fdkaac_read_pcm_frames p w n b).framesCopied = n) ∧
    (∀ k q v u, loop_head n k p w 0 = some (q, v, u) →
      (loop_drain n q u).done = false →
      (decode_one_aac_frame (loop_engine n q u) v).1 ≠ ma_result.MA_SUCCESS →
      (ma_fdkaac_read_pcm_frames p w n b).result =
        (decode_one_aac_frame (loop_engine n q u) v).1 ∧
      ((ma_fdkaac_read_pcm_frames p w n b).result = ma_result.MA_AT_END ∨
        (ma_fdkaac_read_pcm_frames p w n b).result = ma_result.MA_ERROR) ∧
      (ma_fdkaac_read_pcm_frames p w n b).framesCopied = u + (loop_drain n q u).frames ∧
      (ma_fdkaac_read_pcm_frames p w n b).framesCopied < n ∧
      (ma_fdkaac_read_pcm_frames p w n b).pFramesRead =
        (if b then some (u + (loop_drain n q u).frames) else none) ∧
      (ma_fdkaac_read_pcm_frames p w n b).world =
        (decode_one_aac_frame (loop_engine n q u) v).2.2) ∧
    ((ma_fdkaac_read_pcm_frames p w n b).framesCopied < n →
      ∃ k q v u, loop_head n k p w 0 = some (q, v, u) ∧
        (loop_drain n q u).done = false ∧
        (decode_one_aac_frame (loop_engine n q u) v).1 ≠ ma_result.MA_SUCCESS) := by
  have hc := read_loop_counts n p w 0 hn
  have hres : (ma_fdkaac_read_pcm_frames p w n b).result = (read_loop n p w 0).result := by
    rw [read_call_result _ _ _ _ hn]
    apply if_neg
    rintro ⟨h1, h2⟩
    have := hc.2.2.mp h1
    omega
  rw [hres, read_call_framesCopied _ _ _ _ hn, read_call_pFramesRead _ _ _ _ hn,
    read_call_world _ _ _ _ hn]
  refine ⟨hc.2.1, hc.2.2, ?_, ?_⟩
  · intro k q v u hhead hd hf
    obtain ⟨h1, h2, _, h4⟩ := loop_head_result n k p w 0 q v u hhead
    rw [h1, h2, h4, read_loop_fail n q v u hd hf]
    have hlt : (read_loop n p w 0).totalPCMFramesRead < n := by
      have hne : (read_loop n p w 0).result ≠ ma_result.MA_SUCCESS := by
        rw [h1, read_loop_fail n q v u hd hf]; exact hf
      have := hc.2.1
      rcases Nat.lt_or_ge (read_loop n p w 0).totalPCMFramesRead n with h | h
      · exact h
      · exact absurd (hc.2.2.mpr (by omega)) hne
    rw [h2, read_loop_fail n q v u hd hf] at hlt
    refine ⟨rfl, ?_, rfl, hlt, rfl, rfl⟩
    rcases decode_one_aac_frame_codes (loop_engine n q u) v with h | h | h
    · exact absurd h hf
    · exact Or.inl h
    · exact Or.inr h
  · intro hlt
    have hne : (read_loop n p w 0).result ≠ ma_result.MA_SUCCESS := by
      intro h
      have := hc.2.2.mp h
      omega
    exact loop_head_of_failure n p w 0 hne

theorem read_status_on_refill_failure_witness :
    initialized engine_one_left ∧
    loop_head 5 1 engine_one_left [packet_7_8, av_event.failed] 0 =
      some ((decode_one_aac_frame (loop_engine 5 engine_one_left 0)
          [packet_7_8, av_event.failed]).2.1, [av_event.failed], 1) ∧
    (ma_fdkaac_read_pcm_frames engine_one_left [packet_7_8, av_event.failed] 5 true).result
      = ma_result.MA_AT_END ∧
    (ma_fdkaac_read_pcm_frames engine_one_left [packet_7_8, av_event.failed] 5 true).framesCopied
      = 3 :=
  have hhead : loop_head 5 1 engine_one_left [packet_7_8, av_event.failed] 0 =
      some ((decode_one_aac_frame (loop_engine 5 engine_one_left 0)
          [packet_7_8, av_event.failed]).2.1, [av_event.failed], 1) := by
    simp [loop_head, loop_drain, loop_engine, drain, decode_one_aac_frame, engine_one_left,
      packet_7_8, example_info, example_stream, numChannels, frameSize, decode_buf_end, toI32,
      toU32, copy_frame, sample_index, after_DecodeFrame, fetch_info, store_pcm, capacity,
      sizeof_INT_PCM, List.range, List.range.loop]
  have hd : (loop_drain 5 (decode_one_aac_frame (loop_engine 5 engine_one_left 0)
      [packet_7_8, av_event.failed]).2.1 1).done = false := by
    simp [loop_drain, loop_engine, drain, decode_one_aac_frame, engine_one_left,
      packet_7_8, example_info, example_stream, numChannels, frameSize, decode_buf_end, toI32,
      toU32, copy_frame, sample_index, after_DecodeFrame, fetch_info, store_pcm, capacity,
      sizeof_INT_PCM, List.range, List.range.loop]
  have hfr : (loop_drain 5 (decode_one_aac_frame (loop_engine 5 engine_one_left 0)
      [packet_7_8, av_event.failed]).2.1 1).frames = 2 := by
    simp [loop_drain, loop_engine, drain, decode_one_aac_frame, engine_one_left,
      packet_7_8, example_info, example_stream, numChannels, frameSize, decode_buf_end, toI32,
      toU32, copy_frame, sample_index, after_DecodeFrame, fetch_info, store_pcm, capacity,
      sizeof_INT_PCM, List.range, List.range.loop]
  have hf : (decode_one_aac_frame (loop_engine 5 (decode_one_aac_frame
      (loop_engine 5 engine_one_left 0) [packet_7_8, av_event.failed]).2.1 1)
      [av_event.failed]).1 = ma_result.MA_AT_END := rfl
  have h := (read_status_on_refill_failure engine_one_left [packet_7_8, av_event.failed] 5 true
    engine_one_left_initialized (by decide)).2.2.1 1 _ _ _ hhead hd (by rw [hf]; decide)
  ⟨engine_one_left_initialized, hhead, by rw [h.1, hf], by rw [h.2.2.1, hfr]⟩
end FdkAac
